import Mathlib

/-!
Verification of the plugin extension core of the obsidian-host repository.

The Rust sources embedded here are:
* src/services/plugin_service.rs  (discovery, validation, dependency
  resolution, enable/disable, load/unload, event dispatch, semver helpers)
* src/services/plugin_api.rs      (capability gate, host API, event bus,
  plugin storage)
* src/models/plugin.rs            (manifest, capability, state data model)

Rust strings are modelled as `List Char` (the code only manipulates them
by characters); machine integers from `parse::<u32>()` are `Nat` with the
explicit bound `2 ^ 32`.  Fallible operations return `Except`.
-/

set_option maxHeartbeats 1000000

/-- Rust `&str` / `String`, modelled by its character list. -/
abbrev Str := List Char

/-- Characters of a Lean string literal (used to write concrete inputs). -/
def strL (s : String) : Str := s.data

/-- Rust `"x".split('.')` collected into a vector: splits at every `'.'`,
keeping empty pieces (so `""` gives `[""]` and `"a..b"` gives
`["a","","b"]`). -/
def splitDot : Str → List Str
  | [] => [[]]
  | c :: cs =>
    if c = '.' then [] :: splitDot cs
    else
      match splitDot cs with
      | [] => [[c]]
      | p :: ps => (c :: p) :: ps

/-- ASCII digit test, as used by Rust's `u32::from_str`. -/
def isDigitC (c : Char) : Bool := 48 ≤ c.toNat && c.toNat ≤ 57

/-- Accumulating decimal parse over a run of characters; fails at the first
non-digit. -/
def parseDigitsAux : Str → Nat → Option Nat
  | [], acc => some acc
  | c :: cs, acc =>
    if isDigitC c then parseDigitsAux cs (acc * 10 + (c.toNat - 48)) else none

/-- Decimal parse of a non-empty all-digit string. -/
def parseDigits (s : Str) : Option Nat :=
  if s.isEmpty then none else parseDigitsAux s 0

/-- Rust `u32::from_str` also accepts one leading `'+'` sign. -/
def stripPlus : Str → Str
  | [] => []
  | c :: cs => if c = '+' then cs else c :: cs

/-- Rust `s.parse::<u32>()`: optional `'+'`, then a non-empty digit run whose
value fits in 32 bits (overflow is an error). -/
def parseU32 (s : Str) : Option Nat :=
  (parseDigits (stripPlus s)).bind fun n =>
    if n < 4294967296 then some n else none

/-- `version.split('.').filter_map(|s| s.parse::<u32>().ok())`. -/
def parseParts (s : Str) : List Nat := (splitDot s).filterMap parseU32

/-- Rust `s.starts_with(c)` for a single character. -/
def startsWithChar (c : Char) : Str → Bool
  | [] => false
  | d :: _ => d = c

/-- Rust `s.starts_with(">=")`. -/
def startsWithGE : Str → Bool
  | c1 :: c2 :: _ => c1 = '>' && c2 = '='
  | _ => false

/-- Rust `s.trim_start_matches(c)` for a single character: drops every
leading occurrence. -/
def dropWhileChar (c : Char) (s : Str) : Str := s.dropWhile (· = c)

/-- Rust `s.trim_start_matches(">=")`: drops every leading `">="`. -/
def trimStartGE : Str → Str
  | [] => []
  | [c] => [c]
  | c1 :: c2 :: rest =>
    if c1 = '>' ∧ c2 = '=' then trimStartGE rest else c1 :: c2 :: rest

/-- Rust `Vec<u32>` comparison `version_parts >= req_parts` (lexicographic,
shorter prefix compares smaller). -/
def listGE : List Nat → List Nat → Bool
  | _, [] => true
  | [], _ :: _ => false
  | a :: as, b :: bs =>
    if a > b then true else if a < b then false else listGE as bs

/-- `is_valid_semver` from src/services/plugin_service.rs: exactly three
dot-separated pieces, each parsing as `u32`. -/
def is_valid_semver (version : Str) : Bool :=
  let parts := splitDot version
  parts.length = 3 && parts.all fun p => (parseU32 p).isSome

/-- `version_satisfies` from src/services/plugin_service.rs (simplified
semver: exact match, `^`, `~`, `>=`). -/
def version_satisfies (version requirement : Str) : Bool :=
  if !(startsWithChar '^' requirement) && !(startsWithChar '~' requirement)
      && !(startsWithGE requirement) then
    version = requirement
  else
    let req := trimStartGE (dropWhileChar '~' (dropWhileChar '^' requirement))
    match parseParts version, parseParts req with
    | [v0, v1, v2], [r0, r1, r2] =>
      if startsWithChar '^' requirement then
        v0 = r0 && (decide (v1 > r1) || (v1 = r1 && decide (v2 ≥ r2)))
      else if startsWithChar '~' requirement then
        v0 = r0 && v1 = r1 && decide (v2 ≥ r2)
      else if startsWithGE requirement then
        listGE [v0, v1, v2] [r0, r1, r2]
      else
        version = requirement
    | _, _ => false

example : version_satisfies (strL "1.2.3") (strL "1.2.3") = true := by decide
example : version_satisfies (strL "1.5.0") (strL "^1.0.0") = true := by decide
example : version_satisfies (strL "2.0.0") (strL "^1.0.0") = false := by decide
example : version_satisfies (strL "1.2.5") (strL "~1.2.0") = true := by decide
example : version_satisfies (strL "1.3.0") (strL "~1.2.0") = false := by decide
example : version_satisfies (strL "1.2.3") (strL ">=1.2.2") = true := by decide
example : is_valid_semver (strL "1.0.0") = true := by decide
example : is_valid_semver (strL "1.0") = false := by decide
example : is_valid_semver (strL "invalid") = false := by decide

/-! ### Canonical rendering of version triples

`showTriple a b c` is the decimal string `"a.b.c"`; the lemmas below prove
that `version_satisfies` computes the documented constraint grammar on such
canonical renderings. -/

/-- The ASCII digit character for `d < 10`. -/
def digitChar (d : Nat) : Char := Char.ofNat (48 + d)

/-- Decimal rendering of a natural number (most significant digit first). -/
def natToDigits (n : Nat) : Str :=
  if _h : n < 10 then [digitChar n]
  else natToDigits (n / 10) ++ [digitChar (n % 10)]
decreasing_by exact Nat.div_lt_self (by omega) (by omega)

/-- The string `"a.b.c"`. -/
def showTriple (a b c : Nat) : Str :=
  natToDigits a ++ ('.' :: (natToDigits b ++ ('.' :: natToDigits c)))

theorem digitChar_isDigit {d : Nat} (h : d < 10) : isDigitC (digitChar d) = true := by
  interval_cases d <;> decide

theorem digitChar_toNat {d : Nat} (h : d < 10) : (digitChar d).toNat = 48 + d := by
  interval_cases d <;> decide

theorem isDigit_ne_special {c : Char} (h : isDigitC c = true) :
    c ≠ '.' ∧ c ≠ '+' ∧ c ≠ '^' ∧ c ≠ '~' ∧ c ≠ '>' := by
  refine ⟨?_, ?_, ?_, ?_, ?_⟩ <;> rintro rfl <;> exact absurd h (by decide)

theorem mem_natToDigits_isDigit : ∀ n, ∀ c ∈ natToDigits n, isDigitC c = true := by
  intro n
  induction n using Nat.strong_induction_on with
  | _ n ih =>
    intro c hc
    rw [natToDigits] at hc
    by_cases h : n < 10
    · simp only [dif_pos h, List.mem_singleton] at hc
      subst hc
      exact digitChar_isDigit h
    · simp only [dif_neg h, List.mem_append, List.mem_singleton] at hc
      rcases hc with hc | hc
      · exact ih (n / 10) (Nat.div_lt_self (by omega) (by omega)) c hc
      · subst hc
        exact digitChar_isDigit (Nat.mod_lt _ (by omega))

theorem natToDigits_ne_nil (n : Nat) : natToDigits n ≠ [] := by
  rw [natToDigits]
  by_cases h : n < 10 <;> simp [h]

theorem natToDigits_no_dot (n : Nat) : '.' ∉ natToDigits n := by
  intro hm
  exact (isDigit_ne_special (mem_natToDigits_isDigit n _ hm)).1 rfl

theorem parseDigitsAux_append (xs ys : Str) (acc : Nat) :
    parseDigitsAux (xs ++ ys) acc
      = (parseDigitsAux xs acc).bind fun a => parseDigitsAux ys a := by
  induction xs generalizing acc with
  | nil => simp [parseDigitsAux]
  | cons c cs ih =>
    by_cases h : isDigitC c <;> simp [parseDigitsAux, h, ih]

theorem parseDigitsAux_natToDigits :
    ∀ n acc, parseDigitsAux (natToDigits n) acc
      = some (acc * 10 ^ (natToDigits n).length + n) := by
  intro n
  induction n using Nat.strong_induction_on with
  | _ n ih =>
    intro acc
    rw [natToDigits]
    by_cases h : n < 10
    · simp only [dif_pos h, parseDigitsAux, digitChar_isDigit h, if_pos,
        digitChar_toNat h, List.length_singleton, pow_one]
      congr 1
      omega
    · have hlt : n / 10 < n := Nat.div_lt_self (by omega) (by omega)
      have hm : n % 10 < 10 := Nat.mod_lt _ (by omega)
      simp only [dif_neg h]
      rw [parseDigitsAux_append, ih (n / 10) hlt, Option.some_bind]
      have hstep : parseDigitsAux [digitChar (n % 10)]
          (acc * 10 ^ (natToDigits (n / 10)).length + n / 10)
          = some ((acc * 10 ^ (natToDigits (n / 10)).length + n / 10) * 10 + n % 10) := by
        simp only [parseDigitsAux, digitChar_isDigit hm, if_true, digitChar_toNat hm,
          Nat.add_sub_cancel_left]
      rw [hstep, List.length_append, List.length_singleton, pow_succ]
      congr 1
      have hdm : n / 10 * 10 + n % 10 = n := by omega
      calc (acc * 10 ^ (natToDigits (n / 10)).length + n / 10) * 10 + n % 10
          = acc * (10 ^ (natToDigits (n / 10)).length * 10)
            + (n / 10 * 10 + n % 10) := by ring
        _ = acc * (10 ^ (natToDigits (n / 10)).length * 10) + n := by rw [hdm]

theorem natToDigits_head (n : Nat) :
    ∃ d ds, natToDigits n = d :: ds ∧ isDigitC d = true := by
  cases hnd : natToDigits n with
  | nil => exact absurd hnd (natToDigits_ne_nil n)
  | cons d ds =>
    refine ⟨d, ds, rfl, mem_natToDigits_isDigit n d ?_⟩
    rw [hnd]
    exact List.mem_cons_self _ _

theorem parseU32_natToDigits {n : Nat} (h : n < 4294967296) :
    parseU32 (natToDigits n) = some n := by
  obtain ⟨d, ds, hcons, hdig⟩ := natToDigits_head n
  have hplus : d ≠ '+' := (isDigit_ne_special hdig).2.1
  unfold parseU32 parseDigits
  rw [hcons]
  simp only [stripPlus, if_neg hplus, List.isEmpty_cons, ← hcons]
  rw [parseDigitsAux_natToDigits]
  simp [h, natToDigits_ne_nil n]

theorem splitDot_no_dot : ∀ {xs : Str}, '.' ∉ xs → splitDot xs = [xs] := by
  intro xs
  induction xs with
  | nil => intro _; rfl
  | cons c cs ih =>
    intro h
    have hc : ¬ c = '.' := fun hc => h (hc ▸ List.mem_cons_self c cs)
    have hcs : '.' ∉ cs := fun hm => h (List.mem_cons_of_mem c hm)
    simp [splitDot, hc, ih hcs]

theorem splitDot_append : ∀ {xs : Str} (ys : Str), '.' ∉ xs →
    splitDot (xs ++ '.' :: ys) = xs :: splitDot ys := by
  intro xs
  induction xs with
  | nil => intro ys _; simp [splitDot]
  | cons c cs ih =>
    intro ys h
    have hc : ¬ c = '.' := fun hc => h (hc ▸ List.mem_cons_self c cs)
    have hcs : '.' ∉ cs := fun hm => h (List.mem_cons_of_mem c hm)
    simp [splitDot, hc, ih ys hcs]

theorem parseParts_showTriple {a b c : Nat}
    (ha : a < 4294967296) (hb : b < 4294967296) (hc : c < 4294967296) :
    parseParts (showTriple a b c) = [a, b, c] := by
  unfold parseParts showTriple
  rw [splitDot_append _ (natToDigits_no_dot a),
      splitDot_append _ (natToDigits_no_dot b),
      splitDot_no_dot (natToDigits_no_dot c)]
  simp [List.filterMap_cons, parseU32_natToDigits, ha, hb, hc]

theorem startsWithChar_cons_ne {ch d : Char} {ds : Str} (h : d ≠ ch) :
    startsWithChar ch (d :: ds) = false := by
  simp [startsWithChar, h]

theorem startsWithGE_cons_ne {d : Char} {ds : Str} (h : d ≠ '>') :
    startsWithGE (d :: ds) = false := by
  cases ds <;> simp [startsWithGE, h]

theorem dropWhileChar_cons_ne {ch d : Char} {ds : Str} (h : d ≠ ch) :
    dropWhileChar ch (d :: ds) = d :: ds := by
  simp [dropWhileChar, List.dropWhile_cons, h]

theorem trimStartGE_cons_ne {d : Char} {ds : Str} (h : d ≠ '>') :
    trimStartGE (d :: ds) = d :: ds := by
  cases ds with
  | nil => rfl
  | cons c2 rest => simp [trimStartGE, h]

theorem showTriple_cons (a b c : Nat) :
    ∃ d ds, showTriple a b c = d :: ds ∧ isDigitC d = true := by
  obtain ⟨d, ds, hc, hd⟩ := natToDigits_head a
  refine ⟨d, ds ++ ('.' :: (natToDigits b ++ ('.' :: natToDigits c))), ?_, hd⟩
  unfold showTriple
  rw [hc]
  rfl

theorem reqNormalize {s : Str} (h : ∃ d ds, s = d :: ds ∧ isDigitC d = true) :
    trimStartGE (dropWhileChar '~' (dropWhileChar '^' s)) = s ∧
    startsWithChar '^' s = false ∧ startsWithChar '~' s = false ∧
    startsWithGE s = false := by
  obtain ⟨d, ds, rfl, hd⟩ := h
  obtain ⟨_, _, h1, h2, h3⟩ := isDigit_ne_special hd
  refine ⟨?_, startsWithChar_cons_ne h1, startsWithChar_cons_ne h2,
    startsWithGE_cons_ne h3⟩
  rw [dropWhileChar_cons_ne h1, dropWhileChar_cons_ne h2, trimStartGE_cons_ne h3]

theorem showTriple_inj {a b c x y z : Nat}
    (ha : a < 4294967296) (hb : b < 4294967296) (hc : c < 4294967296)
    (hx : x < 4294967296) (hy : y < 4294967296) (hz : z < 4294967296) :
    showTriple a b c = showTriple x y z ↔ (a = x ∧ b = y ∧ c = z) := by
  constructor
  · intro h
    have h2 := congrArg parseParts h
    rw [parseParts_showTriple ha hb hc, parseParts_showTriple hx hy hz] at h2
    simpa using h2
  · rintro ⟨rfl, rfl, rfl⟩
    rfl

theorem version_satisfies_exact {a b c x y z : Nat}
    (ha : a < 4294967296) (hb : b < 4294967296) (hc : c < 4294967296)
    (hx : x < 4294967296) (hy : y < 4294967296) (hz : z < 4294967296) :
    version_satisfies (showTriple a b c) (showTriple x y z) = true
      ↔ (a = x ∧ b = y ∧ c = z) := by
  have hn := reqNormalize (showTriple_cons x y z)
  unfold version_satisfies
  rw [hn.2.1, hn.2.2.1, hn.2.2.2]
  simpa using showTriple_inj ha hb hc hx hy hz

theorem version_satisfies_caret {a b c x y z : Nat}
    (ha : a < 4294967296) (hb : b < 4294967296) (hc : c < 4294967296)
    (hx : x < 4294967296) (hy : y < 4294967296) (hz : z < 4294967296) :
    version_satisfies (showTriple a b c) ('^' :: showTriple x y z) = true
      ↔ (a = x ∧ (y < b ∨ (b = y ∧ z ≤ c))) := by
  have hn := reqNormalize (showTriple_cons x y z)
  have h1 : startsWithChar '^' ('^' :: showTriple x y z) = true := by
    simp [startsWithChar]
  have hreq : trimStartGE (dropWhileChar '~'
      (dropWhileChar '^' ('^' :: showTriple x y z))) = showTriple x y z := by
    have hdrop : dropWhileChar '^' ('^' :: showTriple x y z)
        = dropWhileChar '^' (showTriple x y z) := by
      simp [dropWhileChar, List.dropWhile_cons]
    obtain ⟨d, ds, hcons, hd⟩ := showTriple_cons x y z
    rw [hdrop]
    exact hn.1
  unfold version_satisfies
  simp only [h1, hreq, parseParts_showTriple ha hb hc,
    parseParts_showTriple hx hy hz]
  simp

theorem version_satisfies_tilde {a b c x y z : Nat}
    (ha : a < 4294967296) (hb : b < 4294967296) (hc : c < 4294967296)
    (hx : x < 4294967296) (hy : y < 4294967296) (hz : z < 4294967296) :
    version_satisfies (showTriple a b c) ('~' :: showTriple x y z) = true
      ↔ (a = x ∧ b = y ∧ z ≤ c) := by
  have hn := reqNormalize (showTriple_cons x y z)
  have h1 : startsWithChar '~' ('~' :: showTriple x y z) = true := by
    simp [startsWithChar]
  have h2 : startsWithChar '^' ('~' :: showTriple x y z) = false := by
    simp [startsWithChar]
  have hreq : trimStartGE (dropWhileChar '~'
      (dropWhileChar '^' ('~' :: showTriple x y z))) = showTriple x y z := by
    have hdrop0 : dropWhileChar '^' ('~' :: showTriple x y z)
        = '~' :: showTriple x y z := dropWhileChar_cons_ne (by decide)
    have hdrop : dropWhileChar '~' ('~' :: showTriple x y z)
        = dropWhileChar '~' (showTriple x y z) := by
      simp [dropWhileChar, List.dropWhile_cons]
    obtain ⟨d, ds, hcons, hd⟩ := showTriple_cons x y z
    obtain ⟨_, _, _, hne2, hne3⟩ := isDigit_ne_special hd
    rw [hdrop0, hdrop, hcons, dropWhileChar_cons_ne hne2, trimStartGE_cons_ne hne3]
  unfold version_satisfies
  simp only [h1, h2, hreq, parseParts_showTriple ha hb hc,
    parseParts_showTriple hx hy hz]
  simp [and_assoc]

theorem listGE_triple (a b c x y z : Nat) :
    listGE [a, b, c] [x, y, z] = true
      ↔ (x < a ∨ (a = x ∧ (y < b ∨ (b = y ∧ z ≤ c)))) := by
  show (if a > x then true else if a < x then false else
    if b > y then true else if b < y then false else
    if c > z then true else if c < z then false else true) = true ↔ _
  split_ifs <;> simp <;> omega

theorem version_satisfies_ge {a b c x y z : Nat}
    (ha : a < 4294967296) (hb : b < 4294967296) (hc : c < 4294967296)
    (hx : x < 4294967296) (hy : y < 4294967296) (hz : z < 4294967296) :
    version_satisfies (showTriple a b c) ('>' :: '=' :: showTriple x y z) = true
      ↔ (x < a ∨ (a = x ∧ (y < b ∨ (b = y ∧ z ≤ c)))) := by
  have hn := reqNormalize (showTriple_cons x y z)
  have h1 : startsWithGE ('>' :: '=' :: showTriple x y z) = true := by
    simp [startsWithGE]
  have h2 : startsWithChar '^' ('>' :: '=' :: showTriple x y z) = false := by
    simp [startsWithChar]
  have h3 : startsWithChar '~' ('>' :: '=' :: showTriple x y z) = false := by
    simp [startsWithChar]
  have hreq : trimStartGE (dropWhileChar '~'
      (dropWhileChar '^' ('>' :: '=' :: showTriple x y z))) = showTriple x y z := by
    obtain ⟨d, ds, hcons, hd⟩ := showTriple_cons x y z
    obtain ⟨_, _, _, _, hne3⟩ := isDigit_ne_special hd
    rw [dropWhileChar_cons_ne (by decide), dropWhileChar_cons_ne (by decide)]
    show trimStartGE ('>' :: '=' :: showTriple x y z) = showTriple x y z
    rw [show trimStartGE ('>' :: '=' :: showTriple x y z)
        = trimStartGE (showTriple x y z) from by simp [trimStartGE],
      hcons, trimStartGE_cons_ne hne3]
  unfold version_satisfies
  simp only [h1, h2, h3, hreq, parseParts_showTriple ha hb hc,
    parseParts_showTriple hx hy hz]
  simpa using listGE_triple a b c x y z

/-- C6: `version_satisfies` implements the constraint grammar: no prefix is
exact match; `^x.y.z` is same major with (minor, patch) lexicographically at
least (y, z); `~x.y.z` is same major and minor with patch at least z;
`>=x.y.z` is lexicographic-numeric triple comparison; together with the
concrete examples from the spec. -/
theorem claim_C6_version_constraint_grammar
    {a b c x y z : Nat}
    (ha : a < 4294967296) (hb : b < 4294967296) (hc : c < 4294967296)
    (hx : x < 4294967296) (hy : y < 4294967296) (hz : z < 4294967296) :
    (version_satisfies (showTriple a b c) (showTriple x y z) = true
       ↔ (a = x ∧ b = y ∧ c = z)) ∧
    (version_satisfies (showTriple a b c) ('^' :: showTriple x y z) = true
       ↔ (a = x ∧ (y < b ∨ (b = y ∧ z ≤ c)))) ∧
    (version_satisfies (showTriple a b c) ('~' :: showTriple x y z) = true
       ↔ (a = x ∧ b = y ∧ z ≤ c)) ∧
    (version_satisfies (showTriple a b c) ('>' :: '=' :: showTriple x y z) = true
       ↔ (x < a ∨ (a = x ∧ (y < b ∨ (b = y ∧ z ≤ c))))) ∧
    version_satisfies (strL "1.5.0") (strL "^1.0.0") = true ∧
    version_satisfies (strL "2.0.0") (strL "^1.0.0") = false ∧
    version_satisfies (strL "1.2.5") (strL "~1.2.0") = true ∧
    version_satisfies (strL "1.3.0") (strL "~1.2.0") = false ∧
    version_satisfies (strL "1.2.3") (strL "1.2.3") = true :=
  ⟨version_satisfies_exact ha hb hc hx hy hz,
   version_satisfies_caret ha hb hc hx hy hz,
   version_satisfies_tilde ha hb hc hx hy hz,
   version_satisfies_ge ha hb hc hx hy hz,
   by decide, by decide, by decide, by decide, by decide⟩

/-- Witness for C6 at the concrete triples 1.5.0 and 1.0.0. -/
theorem claim_C6_witness :
    (version_satisfies (showTriple 1 5 0) (showTriple 1 0 0) = true
       ↔ (1 = 1 ∧ 5 = 0 ∧ 0 = 0)) ∧
    (version_satisfies (showTriple 1 5 0) ('^' :: showTriple 1 0 0) = true
       ↔ (1 = 1 ∧ (0 < 5 ∨ (5 = 0 ∧ 0 ≤ 0)))) ∧
    (version_satisfies (showTriple 1 5 0) ('~' :: showTriple 1 0 0) = true
       ↔ (1 = 1 ∧ 5 = 0 ∧ 0 ≤ 0)) ∧
    (version_satisfies (showTriple 1 5 0) ('>' :: '=' :: showTriple 1 0 0) = true
       ↔ (1 < 1 ∨ (1 = 1 ∧ (0 < 5 ∨ (5 = 0 ∧ 0 ≤ 0))))) ∧
    version_satisfies (strL "1.5.0") (strL "^1.0.0") = true ∧
    version_satisfies (strL "2.0.0") (strL "^1.0.0") = false ∧
    version_satisfies (strL "1.2.5") (strL "~1.2.0") = true ∧
    version_satisfies (strL "1.3.0") (strL "~1.2.0") = false ∧
    version_satisfies (strL "1.2.3") (strL "1.2.3") = true :=
  @claim_C6_version_constraint_grammar 1 5 0 1 0 0
    (by decide) (by decide) (by decide) (by decide) (by decide) (by decide)

/-! ### Data model (src/models/plugin.rs, src/error.rs) -/

/-- A `serde_json::Value`. -/
inductive Json where
  | null
  | bool (b : Bool)
  | num (n : Int)
  | str (s : Str)
  | arr (elems : List Json)
  | obj (fields : List (Str × Json))

/-- `PluginType` exactly as declared in src/models/plugin.rs (only
`JavaScript` and `Wasm`; the service code also names a `Python` variant that
this enum does not declare). -/
inductive PluginType where
  | javascript
  | wasm
deriving DecidableEq

/-- `PluginCapability` from src/models/plugin.rs. -/
inductive PluginCapability where
  | readFiles
  | writeFiles
  | deleteFiles
  | vaultMetadata
  | network
  | storage
  | modifyUI
  | commands
  | editorAccess
  | systemExec
deriving DecidableEq

/-- `PluginHook` from src/models/plugin.rs. -/
inductive PluginHook where
  | onLoad
  | onUnload
  | onFileOpen
  | onFileSave
  | onFileCreate
  | onFileDelete
  | onFileRename
  | onVaultSwitch
  | onEditorChange
  | onStartup
  | onShutdown
deriving DecidableEq

/-- `PluginManifest` from src/models/plugin.rs.  The `HashMap<String,String>`
of dependencies is modelled as an association list (iteration order of the
hash map is arbitrary, so theorems quantify over the list). -/
structure PluginManifest where
  id : Str
  name : Str
  version : Str
  description : Option Str
  author : Option Str
  license : Option Str
  main : Str
  plugin_type : PluginType
  styles : List Str
  min_host_version : Option Str
  dependencies : List (Str × Str)
  capabilities : List PluginCapability
  hooks : List PluginHook
  config_schema : Option Json

/-- `PluginState` from src/models/plugin.rs. -/
inductive PluginState where
  | unloaded
  | loading
  | loaded
  | failed
  | disabled
deriving DecidableEq

/-- `Plugin` from src/models/plugin.rs. -/
structure Plugin where
  manifest : PluginManifest
  path : Str
  enabled : Bool
  state : PluginState
  config : Json
  last_error : Option Str

/-- `PluginContext` from src/models/plugin.rs. -/
structure PluginContext where
  plugin_id : Str
  vault_id : Option Str
  capabilities : List PluginCapability
deriving DecidableEq

/-- `AppError` from src/error.rs, restricted to the variants the plugin core
constructs (the remaining variants carry foreign payloads and are never
produced by the code under inspection). -/
inductive AppError where
  | NotFound (msg : Str)
  | InvalidInput (msg : Str)
  | Conflict (msg : Str)
  | Unauthorized (msg : Str)
  | Forbidden (msg : Str)
  | InternalError (msg : Str)
deriving DecidableEq

/-! ### Manifest validation (PluginService::validate_manifest) -/

/-- `PluginService::validate_manifest` from src/services/plugin_service.rs.
`host_version` stands for `env!("CARGO_PKG_VERSION")` (the package version
string is build metadata, not part of the sources under inspection), so the
function is parameterized over it. -/
def validate_manifest (host_version : Str) (manifest : PluginManifest) :
    Except Str Unit :=
  if manifest.id = [] then
    .error (strL "Plugin ID cannot be empty")
  else if manifest.name = [] then
    .error (strL "Plugin name cannot be empty")
  else if manifest.main = [] then
    .error (strL "Plugin main entry point cannot be empty")
  else if ¬ (is_valid_semver manifest.version = true) then
    .error (strL "Invalid version format: " ++ manifest.version)
  else
    match manifest.min_host_version with
    | some min_version =>
      if ¬ (is_valid_semver min_version = true) then
        .error (strL "Invalid min_host_version format: " ++ min_version)
      else if ¬ (version_satisfies host_version min_version = true) then
        .error (strL "Plugin requires host version " ++ min_version
          ++ strL " but current version is " ++ host_version)
      else
        .ok ()
    | none => .ok ()

/-- A concrete manifest whose `min_host_version` is `"0.1.0"`. -/
def manifestC3 : PluginManifest :=
  { id := strL "com.example.a"
    name := strL "Example"
    version := strL "1.0.0"
    description := none
    author := none
    license := none
    main := strL "main.py"
    plugin_type := .javascript
    styles := []
    min_host_version := some (strL "0.1.0")
    dependencies := []
    capabilities := []
    hooks := []
    config_schema := none }

/-- C3: the claim states that, for a present and valid `min_host_version`,
validation succeeds precisely when the running host version is numerically
greater than or equal to it.  The code instead calls
`version_satisfies(host, min)` with a prefix-less requirement, which is an
exact string match: a host version `0.2.0` numerically above the minimum
`0.1.0` is rejected as a hard validation failure. -/
theorem claim_C3_min_host_version_exact_match_bug :
    is_valid_semver (strL "0.1.0") = true ∧
    is_valid_semver (strL "0.2.0") = true ∧
    listGE (parseParts (strL "0.2.0")) (parseParts (strL "0.1.0")) = true ∧
    validate_manifest (strL "0.2.0") manifestC3
      = .error (strL "Plugin requires host version 0.1.0 but current version is 0.2.0") ∧
    validate_manifest (strL "0.1.0") manifestC3 = .ok () := by
  refine ⟨by decide, by decide, by decide, ?_, ?_⟩ <;> rfl

/-! ### Manifest JSON defaults (serde attributes on PluginManifest) -/

/-- `default_plugin_type` from src/models/plugin.rs. -/
def default_plugin_type : PluginType := .javascript

/-- The fields present in a manifest JSON document: `none` means the field
is absent (unknown fields are ignored by serde and not modelled). -/
structure ManifestJson where
  id : Str
  name : Str
  version : Str
  description : Option Str
  author : Option Str
  license : Option Str
  main : Str
  plugin_type : Option PluginType
  styles : Option (List Str)
  min_host_version : Option Str
  dependencies : Option (List (Str × Str))
  capabilities : Option (List PluginCapability)
  hooks : Option (List PluginHook)
  config_schema : Option Json

/-- serde deserialization of `PluginManifest`: fields marked
`#[serde(default)]` (and `plugin_type`, marked
`#[serde(default = "default_plugin_type")]`) receive their default when
absent from the document. -/
def manifestFromJson (j : ManifestJson) : PluginManifest :=
  { id := j.id
    name := j.name
    version := j.version
    description := j.description
    author := j.author
    license := j.license
    main := j.main
    plugin_type := j.plugin_type.getD default_plugin_type
    styles := j.styles.getD []
    min_host_version := j.min_host_version
    dependencies := j.dependencies.getD []
    capabilities := j.capabilities.getD []
    hooks := j.hooks.getD []
    config_schema := j.config_schema }

/-- The two runner implementations (src/services/plugin_runtime/). -/
inductive RunnerKind where
  | wasmRunner
  | pythonRunner
deriving DecidableEq

/-- The runner dispatch in `PluginService::load_plugin`: `Wasm` constructs a
`WasmPluginRunner`; `JavaScript` records "JavaScript plugins not supported
yet" and fails.  (The source also writes a `PluginType::Python` arm
dispatching to the embedded-interpreter `PythonPluginRunner`, but the
`PluginType` enum declared in src/models/plugin.rs has no such variant, so
no declared plugin type reaches that runner.) -/
def runnerFor : PluginType → Except AppError RunnerKind
  | .wasm => .ok .wasmRunner
  | .javascript =>
    .error (.InternalError (strL "JavaScript plugins not supported yet"))

/-- A manifest JSON omitting every defaultable field. -/
def manifestJsonC9 : ManifestJson :=
  { id := strL "p"
    name := strL "P"
    version := strL "1.0.0"
    description := none
    author := none
    license := none
    main := strL "main"
    plugin_type := none
    styles := none
    min_host_version := none
    dependencies := none
    capabilities := none
    hooks := none
    config_schema := none }

/-- C9 counterexample: a manifest omitting the execution-kind field defaults
to `JavaScript`, and at load time that kind is rejected with an error — it
is not dispatched to the embedded-interpreter runner (nor to any runner). -/
theorem claim_C9_counterexample :
    (manifestFromJson manifestJsonC9).plugin_type = PluginType.javascript ∧
    runnerFor (manifestFromJson manifestJsonC9).plugin_type
      = .error (.InternalError (strL "JavaScript plugins not supported yet")) ∧
    runnerFor (manifestFromJson manifestJsonC9).plugin_type
      ≠ .ok RunnerKind.pythonRunner := by
  refine ⟨rfl, rfl, ?_⟩
  intro h
  exact Except.noConfusion h

/-- C9, amended: a manifest JSON omitting the execution-kind field gets
plugin type `JavaScript` — a kind the loader rejects with "JavaScript
plugins not supported yet" instead of dispatching it to any runner — and
the capability list, style-sheet list, dependency map, and hook list each
default to empty when absent. -/
theorem claim_C9_manifest_defaults (j : ManifestJson)
    (hpt : j.plugin_type = none) (hst : j.styles = none)
    (hdep : j.dependencies = none) (hcap : j.capabilities = none)
    (hhk : j.hooks = none) :
    (manifestFromJson j).plugin_type = PluginType.javascript ∧
    (manifestFromJson j).styles = [] ∧
    (manifestFromJson j).dependencies = [] ∧
    (manifestFromJson j).capabilities = [] ∧
    (manifestFromJson j).hooks = [] ∧
    runnerFor (manifestFromJson j).plugin_type
      = .error (.InternalError (strL "JavaScript plugins not supported yet")) := by
  simp [manifestFromJson, hpt, hst, hdep, hcap, hhk, default_plugin_type, runnerFor]

/-- Witness for C9 at the concrete manifest JSON. -/
theorem claim_C9_manifest_defaults_witness :
    (manifestFromJson manifestJsonC9).plugin_type = PluginType.javascript ∧
    (manifestFromJson manifestJsonC9).styles = [] ∧
    (manifestFromJson manifestJsonC9).dependencies = [] ∧
    (manifestFromJson manifestJsonC9).capabilities = [] ∧
    (manifestFromJson manifestJsonC9).hooks = [] ∧
    runnerFor (manifestFromJson manifestJsonC9).plugin_type
      = .error (.InternalError (strL "JavaScript plugins not supported yet")) :=
  claim_C9_manifest_defaults manifestJsonC9 rfl rfl rfl rfl rfl

/-! ### Plugin storage (src/services/plugin_api.rs, PluginStorage) -/

/-- Association-list model of `HashMap` lookup (`get`). -/
def lookupA {α : Type} : List (Str × α) → Str → Option α
  | [], _ => none
  | (k, v) :: rest, key => if k = key then some v else lookupA rest key

/-- Association-list model of `HashMap::insert` (replace if present). -/
def insertA {α : Type} : List (Str × α) → Str → α → List (Str × α)
  | [], k, v => [(k, v)]
  | (k0, v0) :: rest, k, v =>
    if k0 = k then (k, v) :: rest else (k0, v0) :: insertA rest k v

/-- Association-list model of `HashMap::remove`. -/
def removeA {α : Type} : List (Str × α) → Str → List (Str × α)
  | [], _ => []
  | (k0, v0) :: rest, k => if k0 = k then rest else (k0, v0) :: removeA rest k

/-- `PluginStorage` from src/services/plugin_api.rs:
`HashMap<String, HashMap<String, serde_json::Value>>`. -/
def PluginStorage := List (Str × List (Str × Json))

/-- `PluginStorage::get`. -/
def PluginStorage.get (st : PluginStorage) (plugin_id key : Str) : Option Json :=
  (lookupA st plugin_id).bind fun plugin_data => lookupA plugin_data key

/-- `PluginStorage::set` (`entry(..).or_insert_with(HashMap::new).insert`). -/
def PluginStorage.set (st : PluginStorage) (plugin_id key : Str) (value : Json) :
    PluginStorage :=
  insertA st plugin_id (insertA ((lookupA st plugin_id).getD []) key value)

/-- `PluginStorage::delete`. -/
def PluginStorage.delete (st : PluginStorage) (plugin_id key : Str) : PluginStorage :=
  match lookupA st plugin_id with
  | some plugin_data => insertA st plugin_id (removeA plugin_data key)
  | none => st

/-- `PluginStorage::clear`. -/
def PluginStorage.clear (st : PluginStorage) (plugin_id : Str) : PluginStorage :=
  removeA st plugin_id

theorem lookupA_insertA_ne {α : Type} (m : List (Str × α)) {k k2 : Str} (v : α)
    (h : k ≠ k2) : lookupA (insertA m k v) k2 = lookupA m k2 := by
  induction m with
  | nil => simp [insertA, lookupA, h]
  | cons p rest ih =>
    obtain ⟨k0, v0⟩ := p
    by_cases h0 : k0 = k
    · subst h0
      simp [insertA, lookupA, h]
    · simp [insertA, lookupA, h0, ih]

theorem lookupA_removeA_ne {α : Type} (m : List (Str × α)) {k k2 : Str}
    (h : k ≠ k2) : lookupA (removeA m k) k2 = lookupA m k2 := by
  induction m with
  | nil => simp [removeA]
  | cons p rest ih =>
    obtain ⟨k0, v0⟩ := p
    by_cases h0 : k0 = k
    · subst h0
      simp [removeA, lookupA, h, ih]
    · simp [removeA, lookupA, h0, ih]

/-- The storage operations an extension can perform in its own namespace. -/
inductive StorOp where
  | set (key : Str) (value : Json)
  | del (key : Str)
  | clear

/-- One storage operation performed under namespace `pid`. -/
def applyStorOp (pid : Str) (st : PluginStorage) : StorOp → PluginStorage
  | .set k v => st.set pid k v
  | .del k => st.delete pid k
  | .clear => st.clear pid

/-- A sequence of storage operations performed under namespace `pid`. -/
def applyStorOps (pid : Str) (st : PluginStorage) (ops : List StorOp) : PluginStorage :=
  ops.foldl (applyStorOp pid) st

theorem storGet_applyStorOp_other {a b : Str} (hab : a ≠ b)
    (st : PluginStorage) (op : StorOp) (k : Str) :
    (applyStorOp a st op).get b k = st.get b k := by
  cases op with
  | set key value =>
    simp [applyStorOp, PluginStorage.set, PluginStorage.get,
      lookupA_insertA_ne _ _ hab]
  | del key =>
    cases hl : lookupA st a with
    | none => simp [applyStorOp, PluginStorage.delete, hl]
    | some m =>
      simp [applyStorOp, PluginStorage.delete, hl, PluginStorage.get,
        lookupA_insertA_ne _ _ hab]
  | clear =>
    simp [applyStorOp, PluginStorage.clear, PluginStorage.get,
      lookupA_removeA_ne _ hab]

/-- C7: two-run noninterference of `PluginStorage` across namespaces: a
sequence of operations in namespace `a` never changes what a `get` in a
distinct namespace `b` observes, and values written only under `a` are
never returned under `b`. -/
theorem claim_C7_storage_namespace_noninterference (a b : Str) (hab : a ≠ b)
    (ops : List StorOp) (st : PluginStorage) (k : Str) :
    (applyStorOps a st ops).get b k = st.get b k ∧
    (applyStorOps a [] ops).get b k = none := by
  have main : ∀ st2 : PluginStorage,
      (applyStorOps a st2 ops).get b k = st2.get b k := by
    induction ops with
    | nil => intro st2; rfl
    | cons op rest ih =>
      intro st2
      show (applyStorOps a (applyStorOp a st2 op) rest).get b k = _
      rw [ih (applyStorOp a st2 op), storGet_applyStorOp_other hab]
  exact ⟨main st, by rw [main []]; rfl⟩

/-- Witness for C7: plugin `p1` writes and clears; `p2` sees nothing. -/
theorem claim_C7_witness :
    PluginStorage.get (applyStorOps (strL "p1") []
        [StorOp.set (strL "k") (Json.str (strL "v"))]) (strL "p2") (strL "k")
      = PluginStorage.get [] (strL "p2") (strL "k") ∧
    PluginStorage.get (applyStorOps (strL "p1") []
        [StorOp.set (strL "k") (Json.str (strL "v"))]) (strL "p2") (strL "k")
      = none :=
  claim_C7_storage_namespace_noninterference (strL "p1") (strL "p2")
    (by decide) [StorOp.set (strL "k") (Json.str (strL "v"))] [] (strL "k")

/-! ### Capability-gated host API (src/services/plugin_api.rs, PluginApi) -/

/-- Rust `{:?}` debug rendering of a `PluginCapability` variant. -/
def capDebug : PluginCapability → Str
  | .readFiles => strL "ReadFiles"
  | .writeFiles => strL "WriteFiles"
  | .deleteFiles => strL "DeleteFiles"
  | .vaultMetadata => strL "VaultMetadata"
  | .network => strL "Network"
  | .storage => strL "Storage"
  | .modifyUI => strL "ModifyUI"
  | .commands => strL "Commands"
  | .editorAccess => strL "EditorAccess"
  | .systemExec => strL "SystemExec"

/-- The message of the Forbidden error produced by the capability gate. -/
def forbiddenMsg (plugin_id : Str) (c : PluginCapability) : Str :=
  strL "Plugin " ++ plugin_id ++ strL " does not have " ++ capDebug c
    ++ strL " capability"

/-- `PluginApi::check_capability`. -/
def check_capability (ctx : PluginContext) (c : PluginCapability) :
    Except AppError Unit :=
  if ¬ (c ∈ ctx.capabilities) then
    .error (.Forbidden (forbiddenMsg ctx.plugin_id c))
  else
    .ok ()

/-- `FileNode` from src/models (path, directory flag, optional children). -/
inductive FileNode where
  | mk (path : Str) (is_directory : Bool) (children : Option (List FileNode))

/-- `collect_files` from src/services/plugin_api.rs. -/
def collect_files : List FileNode → List Str
  | [] => []
  | .mk path is_directory children :: rest =>
    (if is_directory then [] else [path])
      ++ (match children with
          | some cs => collect_files cs
          | none => [])
      ++ collect_files rest

/-- The external file-access collaborator (`FileService`): the plugin core
delegates to it after the capability check, so its behavior is abstracted
as arbitrary functions. -/
structure FileServiceModel where
  read_file : Str → Str → Except AppError Str
  write_file : Str → Str → Str → Except AppError Unit
  delete_file : Str → Str → Except AppError Unit
  get_file_tree : Str → Except AppError (List FileNode)

/-- `EventType` from src/services/plugin_api.rs. -/
inductive EventType where
  | fileOpen
  | fileSave
  | fileCreate
  | fileDelete
  | fileRename
  | vaultSwitch
  | editorChange
  | showNotice
  | pluginMessage
  | commandExecute
deriving DecidableEq

/-- `Event` from src/services/plugin_api.rs. -/
structure Event where
  event_type : EventType
  data : Json

/-- `Command` from src/services/plugin_api.rs. -/
structure Command where
  id : Str
  name : Str
  description : Option Str
  hotkey : Option Str

/-- The host-side state reachable through a `PluginApi` handle: the shared
`PluginStorage`, the event bus's command registry, and the trace of events
handed to `EventBus::emit` (`emit` synchronously invokes subscriber
callbacks and mutates nothing, so the emission trace is its observable
effect). -/
structure HostState where
  storage : PluginStorage
  commands : List (Str × Command)
  emitted : List Event

/-- `PluginApi::read_file`. -/
def read_file (fs : FileServiceModel) (ctx : PluginContext)
    (vault_path file_path : Str) (st : HostState) :
    Except AppError (Str × HostState) := do
  let _ ← check_capability ctx .readFiles
  let content ← fs.read_file vault_path file_path
  .ok (content, st)

/-- `PluginApi::write_file`. -/
def write_file (fs : FileServiceModel) (ctx : PluginContext)
    (vault_path file_path content : Str) (st : HostState) :
    Except AppError (Unit × HostState) := do
  let _ ← check_capability ctx .writeFiles
  let _ ← fs.write_file vault_path file_path content
  .ok ((), st)

/-- `PluginApi::delete_file`. -/
def delete_file (fs : FileServiceModel) (ctx : PluginContext)
    (vault_path file_path : Str) (st : HostState) :
    Except AppError (Unit × HostState) := do
  let _ ← check_capability ctx .deleteFiles
  let _ ← fs.delete_file vault_path file_path
  .ok ((), st)

/-- Rust `str::starts_with` for a whole pattern string. -/
def hasPrefixB : Str → Str → Bool
  | [], _ => true
  | _ :: _, [] => false
  | a :: as, b :: bs => a = b && hasPrefixB as bs

/-- Rust `str::contains` (substring search). -/
def containsSub (pat : Str) : Str → Bool
  | [] => hasPrefixB pat []
  | c :: rest => hasPrefixB pat (c :: rest) || containsSub pat rest

/-- `PluginApi::list_files` (tree flattening plus substring filtering). -/
def list_files (fs : FileServiceModel) (ctx : PluginContext)
    (vault_path : Str) (pattern : Option Str) (st : HostState) :
    Except AppError (List Str × HostState) := do
  let _ ← check_capability ctx .readFiles
  let tree ← fs.get_file_tree vault_path
  let files := collect_files tree
  let files := match pattern with
    | some pat => files.filter fun f => containsSub pat f
    | none => files
  .ok (files, st)

/-- `PluginApi::storage_get`. -/
def storage_get (ctx : PluginContext) (key : Str) (st : HostState) :
    Except AppError (Option Json × HostState) := do
  let _ ← check_capability ctx .storage
  .ok (st.storage.get ctx.plugin_id key, st)

/-- `PluginApi::storage_set`. -/
def storage_set (ctx : PluginContext) (key : Str) (value : Json)
    (st : HostState) : Except AppError (Unit × HostState) := do
  let _ ← check_capability ctx .storage
  .ok ((), { st with storage := st.storage.set ctx.plugin_id key value })

/-- `PluginApi::storage_delete`. -/
def storage_delete (ctx : PluginContext) (key : Str) (st : HostState) :
    Except AppError (Unit × HostState) := do
  let _ ← check_capability ctx .storage
  .ok ((), { st with storage := st.storage.delete ctx.plugin_id key })

/-- `PluginApi::storage_clear`. -/
def storage_clear (ctx : PluginContext) (st : HostState) :
    Except AppError (Unit × HostState) := do
  let _ ← check_capability ctx .storage
  .ok ((), { st with storage := st.storage.clear ctx.plugin_id })

/-- `PluginApi::http_get` (network client unimplemented in the source). -/
def http_get (ctx : PluginContext) (_url : Str) (_st : HostState) :
    Except AppError (Str × HostState) := do
  let _ ← check_capability ctx .network
  .error (.InternalError (strL "HTTP client not yet implemented"))

/-- `PluginApi::http_post`. -/
def http_post (ctx : PluginContext) (_url _body : Str) (_st : HostState) :
    Except AppError (Str × HostState) := do
  let _ ← check_capability ctx .network
  .error (.InternalError (strL "HTTP client not yet implemented"))

/-- `PluginApi::emit_event` (delivery through the event bus). -/
def emit_event (event : Event) (st : HostState) :
    Except AppError (Unit × HostState) :=
  .ok ((), { st with emitted := st.emitted ++ [event] })

/-- `PluginApi::register_command`. -/
def register_command (ctx : PluginContext) (command : Command)
    (st : HostState) : Except AppError (Str × HostState) := do
  let _ ← check_capability ctx .commands
  let command_id := ctx.plugin_id ++ strL ":" ++ command.id
  .ok (command_id, { st with commands := insertA st.commands command_id command })

/-- `PluginApi::show_notice` (emits a `ShowNotice` event with the message
and the duration defaulted to 3000). -/
def show_notice (ctx : PluginContext) (message : Str)
    (duration_ms : Option Nat) (st : HostState) :
    Except AppError (Unit × HostState) := do
  let _ ← check_capability ctx .modifyUI
  emit_event
    { event_type := .showNotice
      data := .obj [(strL "message", .str message),
                    (strL "duration", .num (Int.ofNat (duration_ms.getD 3000)))] }
    st

theorem check_capability_mem {ctx : PluginContext} {c : PluginCapability}
    (h : c ∈ ctx.capabilities) : check_capability ctx c = .ok () := by
  simp [check_capability, h]

theorem check_capability_not_mem {ctx : PluginContext} {c : PluginCapability}
    (h : c ∉ ctx.capabilities) :
    check_capability ctx c = .error (.Forbidden (forbiddenMsg ctx.plugin_id c)) := by
  simp [check_capability, h]

/-- C1: every capability-gated host-API operation first consults the granted
capability set of the invoking extension's context: without the required
capability it returns exactly the Forbidden error naming the missing
capability and the extension id (no state change, no delegate call); with
it, the operation's result is exactly the delegate's (file service /
storage / bus) outcome, never a permission error. -/
theorem claim_C1_capability_gate (fs : FileServiceModel) (ctx : PluginContext)
    (vault_path file_path content url body key message : Str)
    (pattern : Option Str) (value : Json) (command : Command)
    (duration_ms : Option Nat) (st : HostState) :
    (∀ pid c, forbiddenMsg pid c
       = strL "Plugin " ++ pid ++ strL " does not have " ++ capDebug c
           ++ strL " capability") ∧
    (read_file fs ctx vault_path file_path st
       = if PluginCapability.readFiles ∈ ctx.capabilities then
           (fs.read_file vault_path file_path).map fun c => (c, st)
         else .error (.Forbidden (forbiddenMsg ctx.plugin_id .readFiles))) ∧
    (write_file fs ctx vault_path file_path content st
       = if PluginCapability.writeFiles ∈ ctx.capabilities then
           (fs.write_file vault_path file_path content).map fun _ => ((), st)
         else .error (.Forbidden (forbiddenMsg ctx.plugin_id .writeFiles))) ∧
    (delete_file fs ctx vault_path file_path st
       = if PluginCapability.deleteFiles ∈ ctx.capabilities then
           (fs.delete_file vault_path file_path).map fun _ => ((), st)
         else .error (.Forbidden (forbiddenMsg ctx.plugin_id .deleteFiles))) ∧
    (list_files fs ctx vault_path pattern st
       = if PluginCapability.readFiles ∈ ctx.capabilities then
           (fs.get_file_tree vault_path).map fun tree =>
             ((match pattern with
               | some pat => (collect_files tree).filter fun f => containsSub pat f
               | none => collect_files tree), st)
         else .error (.Forbidden (forbiddenMsg ctx.plugin_id .readFiles))) ∧
    (storage_get ctx key st
       = if PluginCapability.storage ∈ ctx.capabilities then
           .ok (st.storage.get ctx.plugin_id key, st)
         else .error (.Forbidden (forbiddenMsg ctx.plugin_id .storage))) ∧
    (storage_set ctx key value st
       = if PluginCapability.storage ∈ ctx.capabilities then
           .ok ((), { st with storage := st.storage.set ctx.plugin_id key value })
         else .error (.Forbidden (forbiddenMsg ctx.plugin_id .storage))) ∧
    (storage_delete ctx key st
       = if PluginCapability.storage ∈ ctx.capabilities then
           .ok ((), { st with storage := st.storage.delete ctx.plugin_id key })
         else .error (.Forbidden (forbiddenMsg ctx.plugin_id .storage))) ∧
    (storage_clear ctx st
       = if PluginCapability.storage ∈ ctx.capabilities then
           .ok ((), { st with storage := st.storage.clear ctx.plugin_id })
         else .error (.Forbidden (forbiddenMsg ctx.plugin_id .storage))) ∧
    (http_get ctx url st
       = if PluginCapability.network ∈ ctx.capabilities then
           .error (.InternalError (strL "HTTP client not yet implemented"))
         else .error (.Forbidden (forbiddenMsg ctx.plugin_id .network))) ∧
    (http_post ctx url body st
       = if PluginCapability.network ∈ ctx.capabilities then
           .error (.InternalError (strL "HTTP client not yet implemented"))
         else .error (.Forbidden (forbiddenMsg ctx.plugin_id .network))) ∧
    (register_command ctx command st
       = if PluginCapability.commands ∈ ctx.capabilities then
           .ok (ctx.plugin_id ++ strL ":" ++ command.id,
             { st with
               commands :=
                 insertA st.commands
                   (ctx.plugin_id ++ strL ":" ++ command.id) command })
         else .error (.Forbidden (forbiddenMsg ctx.plugin_id .commands))) ∧
    (show_notice ctx message duration_ms st
       = if PluginCapability.modifyUI ∈ ctx.capabilities then
           .ok ((), { st with
             emitted :=
               st.emitted
                 ++ [{ event_type := .showNotice
                       data := .obj [(strL "message", .str message),
                         (strL "duration",
                          .num (Int.ofNat (duration_ms.getD 3000)))] }] })
         else .error (.Forbidden (forbiddenMsg ctx.plugin_id .modifyUI))) := by
  refine ⟨fun pid c => rfl, ?_, ?_, ?_, ?_, ?_, ?_, ?_, ?_, ?_, ?_, ?_, ?_⟩
  · by_cases h : PluginCapability.readFiles ∈ ctx.capabilities
    · cases hfs : fs.read_file vault_path file_path <;>
        simp [read_file, check_capability, h, hfs, Except.map, bind, Except.bind]
    · simp [read_file, check_capability, h, bind, Except.bind]
  · by_cases h : PluginCapability.writeFiles ∈ ctx.capabilities
    · cases hfs : fs.write_file vault_path file_path content <;>
        simp [write_file, check_capability, h, hfs, Except.map, bind, Except.bind]
    · simp [write_file, check_capability, h, bind, Except.bind]
  · by_cases h : PluginCapability.deleteFiles ∈ ctx.capabilities
    · cases hfs : fs.delete_file vault_path file_path <;>
        simp [delete_file, check_capability, h, hfs, Except.map, bind, Except.bind]
    · simp [delete_file, check_capability, h, bind, Except.bind]
  · by_cases h : PluginCapability.readFiles ∈ ctx.capabilities
    · cases hfs : fs.get_file_tree vault_path <;>
        simp [list_files, check_capability, h, hfs, Except.map, bind, Except.bind]
    · simp [list_files, check_capability, h, bind, Except.bind]
  · by_cases h : PluginCapability.storage ∈ ctx.capabilities <;>
      simp [storage_get, check_capability, h, bind, Except.bind]
  · by_cases h : PluginCapability.storage ∈ ctx.capabilities <;>
      simp [storage_set, check_capability, h, bind, Except.bind]
  · by_cases h : PluginCapability.storage ∈ ctx.capabilities <;>
      simp [storage_delete, check_capability, h, bind, Except.bind]
  · by_cases h : PluginCapability.storage ∈ ctx.capabilities <;>
      simp [storage_clear, check_capability, h, bind, Except.bind]
  · by_cases h : PluginCapability.network ∈ ctx.capabilities <;>
      simp [http_get, check_capability, h, bind, Except.bind]
  · by_cases h : PluginCapability.network ∈ ctx.capabilities <;>
      simp [http_post, check_capability, h, bind, Except.bind]
  · by_cases h : PluginCapability.commands ∈ ctx.capabilities <;>
      simp [register_command, check_capability, h, bind, Except.bind]
  · by_cases h : PluginCapability.modifyUI ∈ ctx.capabilities <;>
      simp [show_notice, emit_event, check_capability, h, bind, Except.bind]

/-! ### Plugin service state (src/services/plugin_service.rs) -/

/-- A live runner instance in the service's runtime table.  The runner's
behavior (wasm VM / embedded interpreter) is external to the plugin core,
so it is abstracted: what its `unload()` returns, and what its
`on_event(event)` returns. -/
structure Runtime where
  unload_result : Except AppError Unit
  on_event : Event → Except AppError Unit

/-- The persisted `.plugins_config.json` file. -/
inductive DiskFile where
  | missing
  | corrupt
  | saved (enabled_plugins : List Str)

/-- `PluginService::load_config` composed with the `unwrap_or_default()` in
`PluginService::new`: a missing file yields the default (empty) config, and
a read/parse failure — an `Err` from `load_config` — is also defaulted. -/
def load_config : DiskFile → List Str
  | .missing => []
  | .corrupt => []
  | .saved enabled_plugins => enabled_plugins

/-- `HashSet::insert` on the enabled-set. -/
def insertS (x : Str) (l : List Str) : List Str :=
  if x ∈ l then l else x :: l

/-- `HashSet::remove` on the enabled-set. -/
def removeS (x : Str) (l : List Str) : List Str :=
  l.filter fun y => y ≠ x

/-- The mutable state owned by `PluginService`: the plugin map, the runtime
table, the in-memory enabled-set, and the persistence file.  (The fields
`plugins_dir`, `config_path`, `load_order`, `event_bus` and `storage` are
modelled elsewhere or constant.) -/
structure ServiceState where
  plugins : List (Str × Plugin)
  runtimes : List (Str × Runtime)
  config_enabled : List Str
  disk : DiskFile

/-- `PluginService::new`: loads the config from disk, defaulting on a
missing or corrupt file. -/
def newService (disk : DiskFile) : ServiceState :=
  { plugins := [], runtimes := [], config_enabled := load_config disk, disk := disk }

/-- `PluginService::save_config` (serialization and file write are assumed
to succeed; their failure paths are foreign I/O). -/
def save_config (st : ServiceState) : ServiceState :=
  { st with disk := .saved st.config_enabled }

/-- `PluginService::enable_plugin`. -/
def enable_plugin (st : ServiceState) (plugin_id : Str) :
    ServiceState × Except Str Unit :=
  match lookupA st.plugins plugin_id with
  | none => (st, .error (strL "Plugin not found: " ++ plugin_id))
  | some p =>
    if p.enabled then (st, .ok ())
    else
      let p := { p with enabled := true, state := .unloaded }
      let st := { st with
        plugins := insertA st.plugins plugin_id p
        config_enabled := insertS plugin_id st.config_enabled }
      (save_config st, .ok ())

/-- `PluginService::disable_plugin`.  Note: it only flips the flag, state,
enabled-set and persistence — it does not touch the runtime table. -/
def disable_plugin (st : ServiceState) (plugin_id : Str) :
    ServiceState × Except Str Unit :=
  match lookupA st.plugins plugin_id with
  | none => (st, .error (strL "Plugin not found: " ++ plugin_id))
  | some p =>
    if ¬ p.enabled then (st, .ok ())
    else
      let p := { p with enabled := false, state := .disabled }
      let st := { st with
        plugins := insertA st.plugins plugin_id p
        config_enabled := removeS plugin_id st.config_enabled }
      (save_config st, .ok ())

/-- Rust `Display` (`user_message`) of the modelled `AppError` variants, as
used for `e.to_string()` when recording `last_error`. -/
def errToString : AppError → Str
  | .NotFound m => strL "The requested resource was not found: " ++ m
  | .InvalidInput m => strL "Invalid input: " ++ m
  | .Conflict m => strL "A conflict occurred: " ++ m
  | .Unauthorized m => strL "Authentication required: " ++ m
  | .Forbidden m => strL "Access denied: " ++ m
  | .InternalError m => strL "An unexpected error occurred: " ++ m

/-- What loading a runner of a given kind yields (module file reading, VM
instantiation, interpreter import — external substrate behavior), given the
plugin's install path and manifest. -/
structure RunnerOracle where
  load : PluginType → Str → PluginManifest → Except AppError Runtime

/-- `PluginService::load_plugin`.  The transient `Loading` state is
overwritten on every path before the function returns.  The source's match
on the plugin type also names a `PluginType::Python` arm (the
embedded-interpreter runner), but the declared `PluginType` enum has only
`JavaScript` — which fails — and `Wasm`. -/
def load_plugin (oracle : RunnerOracle) (st : ServiceState) (plugin_id : Str) :
    ServiceState × Except AppError Unit :=
  match lookupA st.plugins plugin_id with
  | none => (st, .error (.NotFound (strL "Plugin not found: " ++ plugin_id)))
  | some p =>
    if p.state = .loaded then (st, .ok ())
    else if ¬ p.enabled then
      (st, .error (.InvalidInput (strL "Plugin " ++ plugin_id ++ strL " is disabled")))
    else
      match p.manifest.plugin_type with
      | .javascript =>
        let p := { p with
          state := .failed
          last_error := some (strL "JavaScript plugins not supported yet") }
        ({ st with plugins := insertA st.plugins plugin_id p },
         .error (.InternalError (strL "JavaScript plugins not supported yet")))
      | .wasm =>
        match oracle.load .wasm p.path p.manifest with
        | .ok rt =>
          let p := { p with state := .loaded, last_error := none }
          ({ st with
             plugins := insertA st.plugins plugin_id p
             runtimes := insertA st.runtimes plugin_id rt }, .ok ())
        | .error e =>
          let p := { p with state := .failed, last_error := some (errToString e) }
          ({ st with plugins := insertA st.plugins plugin_id p }, .error e)

/-- `PluginService::unload_plugin`: removes the runtime (its `unload()`
result is only logged), then resets the plugin's state to `Unloaded`;
always returns `Ok`. -/
def unload_plugin (st : ServiceState) (plugin_id : Str) :
    ServiceState × Except AppError Unit :=
  let st := match lookupA st.runtimes plugin_id with
    | some _rt => { st with runtimes := removeA st.runtimes plugin_id }
    | none => st
  let st := match lookupA st.plugins plugin_id with
    | some p =>
      { st with plugins := insertA st.plugins plugin_id { p with state := .unloaded } }
    | none => st
  (st, .ok ())

/-- `PluginService::dispatch_event`: iterates the runtime table (through
`&self`, so the registry itself cannot be mutated), invoking every runner's
`on_event`; a handler error is logged and discarded.  The returned list is
the invocation trace: each runner id paired with its handler's result. -/
def dispatch_event : List (Str × Runtime) → Event → List (Str × Except AppError Unit)
  | [], _ => []
  | (id, rt) :: rest, event => (id, rt.on_event event) :: dispatch_event rest event

/-- The startup loading loop from src/main.rs: for each enabled id in order,
`if let Err(e) = ps.load_plugin(&id).await { error!(..) }` — failures are
logged and the loop continues.  Returns the final state and the list of ids
for which a load was attempted. -/
def load_plugins_loop (oracle : RunnerOracle) (st : ServiceState) :
    List Str → ServiceState × List Str
  | [] => (st, [])
  | id :: rest =>
    let st1 := (load_plugin oracle st id).1
    let (st2, tried) := load_plugins_loop oracle st1 rest
    (st2, id :: tried)

/-! ### Plugin discovery (PluginService::discover_plugins) -/

/-- `PluginService::load_plugin_manifest`: reads `manifest.json` in the
directory (`content` carries the read+parse outcome; `.error` covers a
missing, unreadable or unparsable file), validates the manifest, and builds
the `Plugin` record, `enabled` iff the id is in the current enabled-set. -/
def load_plugin_manifest (host_version : Str) (config_enabled : List Str)
    (path : Str) (content : Except Str ManifestJson) : Except Str Plugin := do
  let mj ← content
  let manifest := manifestFromJson mj
  let _ ← validate_manifest host_version manifest
  let enabled := decide (manifest.id ∈ config_enabled)
  .ok { manifest := manifest
        path := path
        enabled := enabled
        state := if enabled then .unloaded else .disabled
        config := .null
        last_error := none }

/-- One iteration of the discovery loop: a directory whose manifest fails
to load is logged and skipped; on success, the id is recorded, and on a
first run the plugin is auto-enabled (flag, state, and enabled-set). -/
def discover_step (host_version : Str) (is_first_run : Bool)
    (acc : ServiceState × List Str) (entry : Str × Except Str ManifestJson) :
    ServiceState × List Str :=
  match load_plugin_manifest host_version acc.1.config_enabled entry.1 entry.2 with
  | .ok plugin =>
    let plugin_id := plugin.manifest.id
    let discovered := acc.2 ++ [plugin_id]
    if is_first_run then
      let plugin := { plugin with enabled := true, state := .unloaded }
      ({ acc.1 with
         config_enabled := insertS plugin_id acc.1.config_enabled
         plugins := insertA acc.1.plugins plugin_id plugin }, discovered)
    else
      ({ acc.1 with plugins := insertA acc.1.plugins plugin_id plugin }, discovered)
  | .error _ => acc

/-- `PluginService::discover_plugins` over the directory entries of the
plugins dir: `is_first_run` is computed once from the enabled-set, every
directory is processed in order, and on a first run with at least one
discovered plugin the config is saved. -/
def discover_plugins (host_version : Str) (st : ServiceState)
    (entries : List (Str × Except Str ManifestJson)) :
    ServiceState × Except Str (List Plugin) :=
  let is_first_run := st.config_enabled.isEmpty
  let res := entries.foldl (discover_step host_version is_first_run) (st, [])
  let res1 := if is_first_run ∧ ¬ res.2.isEmpty then save_config res.1 else res.1
  (res1, .ok (res1.plugins.map fun pr => pr.2))

theorem lookupA_insertA_self {α : Type} (m : List (Str × α)) (k : Str) (v : α) :
    lookupA (insertA m k v) k = some v := by
  induction m with
  | nil => simp [insertA, lookupA]
  | cons p rest ih =>
    obtain ⟨k0, v0⟩ := p
    by_cases h0 : k0 = k
    · subst h0
      simp [insertA, lookupA]
    · simp [insertA, lookupA, h0, ih]

theorem mem_insertS_self (x : Str) (l : List Str) : x ∈ insertS x l := by
  by_cases h : x ∈ l <;> simp [insertS, h]

theorem mem_insertS_of_mem {x : Str} (y : Str) {l : List Str} (h : x ∈ l) :
    x ∈ insertS y l := by
  by_cases hy : y ∈ l <;> simp [insertS, hy, h, List.mem_cons]

/-- Loading a manifest does not depend on the enabled-set except through
the `enabled`/`state` fields of the produced record. -/
theorem load_plugin_manifest_config (host_version : Str) (config_enabled : List Str)
    (path : Str) (content : Except Str ManifestJson) :
    load_plugin_manifest host_version config_enabled path content
      = (load_plugin_manifest host_version [] path content).map fun p =>
          { p with
            enabled := decide (p.manifest.id ∈ config_enabled)
            state := if p.manifest.id ∈ config_enabled then PluginState.unloaded
                     else PluginState.disabled } := by
  cases content with
  | error e => rfl
  | ok mj =>
    cases hv : validate_manifest host_version (manifestFromJson mj) with
    | error e =>
      simp [load_plugin_manifest, hv, bind, Except.bind, Except.map]
    | ok u =>
      simp [load_plugin_manifest, hv, bind, Except.bind, Except.map]

/-- Fold invariant preservation helper. -/
theorem foldl_invariant {α β : Type} (f : β → α → β) (P : β → Prop)
    (hstep : ∀ b a, P b → P (f b a)) :
    ∀ (l : List α) (b : β), P b → P (l.foldl f b) := by
  intro l
  induction l with
  | nil => intro b hb; exact hb
  | cons a rest ih =>
    intro b hb
    exact ih (f b a) (hstep b a hb)

theorem except_map_eq_ok {α β : Type} {f : α → β} {x : Except Str α} {y : β}
    (h : x.map f = .ok y) : ∃ a, x = .ok a ∧ y = f a := by
  cases x with
  | error e => simp [Except.map] at h
  | ok a => exact ⟨a, rfl, by simpa [Except.map] using h.symm⟩

/-- C5, amended (first-run half): if the persisted enabled-set is empty when
discovery runs (fresh install, including a missing or corrupt persistence
file), every extension whose manifest loads and validates ends up enabled
with state `Unloaded`, its id is in the enabled-set, and the decision is
persisted immediately. -/
theorem claim_C5_first_run_auto_enable (host_version : Str) (st : ServiceState)
    (entries pre post : List (Str × Except Str ManifestJson))
    (e : Str × Except Str ManifestJson) (p : Plugin)
    (hempty : st.config_enabled = [])
    (hsplit : entries = pre ++ e :: post)
    (hok : load_plugin_manifest host_version [] e.1 e.2 = .ok p) :
    ∃ q, lookupA (discover_plugins host_version st entries).1.plugins
        p.manifest.id = some q
      ∧ q.enabled = true ∧ q.state = .unloaded
      ∧ p.manifest.id ∈ (discover_plugins host_version st entries).1.config_enabled
      ∧ (discover_plugins host_version st entries).1.disk
          = .saved (discover_plugins host_version st entries).1.config_enabled := by
  subst hsplit
  set P : ServiceState × List Str → Prop := fun acc =>
    (∃ q, lookupA acc.1.plugins p.manifest.id = some q
       ∧ q.enabled = true ∧ q.state = PluginState.unloaded)
    ∧ p.manifest.id ∈ acc.1.config_enabled ∧ acc.2 ≠ [] with hP
  have hstep : ∀ acc entry, P acc →
      P (discover_step host_version true acc entry) := by
    intro acc entry hacc
    obtain ⟨⟨q, hq, hqe, hqs⟩, hcfg, hne⟩ := hacc
    unfold discover_step
    cases hl : load_plugin_manifest host_version acc.1.config_enabled
        entry.1 entry.2 with
    | error _ => exact ⟨⟨q, hq, hqe, hqs⟩, hcfg, hne⟩
    | ok p2 =>
      simp only [if_true, hP]
      by_cases hk : p2.manifest.id = p.manifest.id
      · refine ⟨⟨{ p2 with enabled := true, state := PluginState.unloaded },
          ?_, rfl, rfl⟩, ?_, by simp⟩
        · rw [← hk]
          exact lookupA_insertA_self _ _ _
        · exact mem_insertS_of_mem _ hcfg
      · refine ⟨⟨q, ?_, hqe, hqs⟩, mem_insertS_of_mem _ hcfg, by simp⟩
        rw [lookupA_insertA_ne _ _ hk, hq]
  have hest : P (discover_step host_version true
      (List.foldl (discover_step host_version true) (st, []) pre) e) := by
    set acc0 := List.foldl (discover_step host_version true) (st, []) pre
    have hl : load_plugin_manifest host_version acc0.1.config_enabled e.1 e.2
        = .ok { p with
            enabled := decide (p.manifest.id ∈ acc0.1.config_enabled)
            state := if p.manifest.id ∈ acc0.1.config_enabled
                     then PluginState.unloaded else PluginState.disabled } := by
      rw [load_plugin_manifest_config, hok]
      rfl
    unfold discover_step
    rw [hl]
    simp only [if_true, hP]
    exact ⟨⟨_, lookupA_insertA_self _ _ _, rfl, rfl⟩, mem_insertS_self _ _, by simp⟩
  have hfold : P (List.foldl (discover_step host_version true) (st, [])
      (pre ++ e :: post)) := by
    rw [List.foldl_append, List.foldl_cons]
    exact foldl_invariant _ P hstep post _ hest
  obtain ⟨⟨q, hq, hqe, hqs⟩, hcfg, hne⟩ := hfold
  have hfr : st.config_enabled.isEmpty = true := by simp [hempty]
  have hres : (List.foldl (discover_step host_version st.config_enabled.isEmpty)
      (st, []) (pre ++ e :: post))
      = (List.foldl (discover_step host_version true) (st, []) (pre ++ e :: post)) := by
    rw [hfr]
  refine ⟨q, ?_, hqe, hqs, ?_, ?_⟩ <;>
    simp only [discover_plugins, hres, hfr, true_and, if_pos,
      List.isEmpty_eq_true, hne, not_false_iff, if_true, save_config] <;>
    first
      | exact hq
      | exact hcfg

/-- C5, amended (restart half): when the persisted enabled-set is non-empty
at discovery time, discovery changes neither the enabled-set nor the
persistence file, and an extension absent from the set (e.g. previously
disabled) is discovered as disabled: enabled = false, state `Disabled`. -/
theorem claim_C5_restart_respects_disabled (host_version : Str) (st : ServiceState)
    (entries pre post : List (Str × Except Str ManifestJson))
    (e : Str × Except Str ManifestJson) (p : Plugin)
    (hnonempty : st.config_enabled ≠ [])
    (hsplit : entries = pre ++ e :: post)
    (hok : load_plugin_manifest host_version [] e.1 e.2 = .ok p) :
    (discover_plugins host_version st entries).1.config_enabled = st.config_enabled
    ∧ (discover_plugins host_version st entries).1.disk = st.disk
    ∧ (p.manifest.id ∉ st.config_enabled →
        ∃ q, lookupA (discover_plugins host_version st entries).1.plugins
            p.manifest.id = some q
          ∧ q.enabled = false ∧ q.state = .disabled) := by
  subst hsplit
  set P : ServiceState × List Str → Prop := fun acc =>
    acc.1.config_enabled = st.config_enabled ∧ acc.1.disk = st.disk with hP
  set Q : ServiceState × List Str → Prop := fun acc =>
    P acc ∧ (p.manifest.id ∉ st.config_enabled →
      ∃ q, lookupA acc.1.plugins p.manifest.id = some q
        ∧ q.enabled = false ∧ q.state = PluginState.disabled) with hQ
  have hstepP : ∀ acc entry, P acc →
      P (discover_step host_version false acc entry) := by
    intro acc entry hacc
    unfold discover_step
    cases hl : load_plugin_manifest host_version acc.1.config_enabled
        entry.1 entry.2 with
    | error _ => exact hacc
    | ok p2 => simpa [hP] using hacc
  have hstepQ : ∀ acc entry, Q acc →
      Q (discover_step host_version false acc entry) := by
    intro acc entry hacc
    obtain ⟨hPacc, hlook⟩ := hacc
    refine ⟨hstepP acc entry hPacc, ?_⟩
    intro hnotin
    obtain ⟨q, hq, hqe, hqs⟩ := hlook hnotin
    unfold discover_step
    cases hl : load_plugin_manifest host_version acc.1.config_enabled
        entry.1 entry.2 with
    | error _ => exact ⟨q, hq, hqe, hqs⟩
    | ok p2 =>
      simp only [if_neg (by simp : ¬ (false = true)), hQ, hP]
      by_cases hk : p2.manifest.id = p.manifest.id
      · rw [load_plugin_manifest_config] at hl
        obtain ⟨pb, hpb, hp2⟩ := except_map_eq_ok hl
        have hid : pb.manifest.id = p.manifest.id := by
          rw [hp2] at hk
          exact hk
        refine ⟨p2, ?_, ?_, ?_⟩
        · rw [hk, lookupA_insertA_self]
        · rw [hp2]
          simp only [hid, hPacc.1]
          simp [hnotin]
        · rw [hp2]
          simp only [hid, hPacc.1]
          simp [hnotin]
      · exact ⟨q, by rw [lookupA_insertA_ne _ _ hk, hq], hqe, hqs⟩
  have hestQ : Q (discover_step host_version false
      (List.foldl (discover_step host_version false) (st, []) pre) e) := by
    set acc0 := List.foldl (discover_step host_version false) (st, []) pre
    have hPacc0 : P acc0 :=
      foldl_invariant _ P hstepP pre (st, []) ⟨rfl, rfl⟩
    have hl : load_plugin_manifest host_version acc0.1.config_enabled e.1 e.2
        = .ok { p with
            enabled := decide (p.manifest.id ∈ acc0.1.config_enabled)
            state := if p.manifest.id ∈ acc0.1.config_enabled
                     then PluginState.unloaded else PluginState.disabled } := by
      rw [load_plugin_manifest_config, hok]
      rfl
    refine ⟨hstepP acc0 e hPacc0, ?_⟩
    intro hnotin
    unfold discover_step
    rw [hl]
    simp only [if_neg (by simp : ¬ (false = true))]
    refine ⟨_, lookupA_insertA_self _ _ _, ?_, ?_⟩ <;>
      simp [hPacc0.1, hnotin]
  have hfold : Q (List.foldl (discover_step host_version false) (st, [])
      (pre ++ e :: post)) := by
    rw [List.foldl_append, List.foldl_cons]
    exact foldl_invariant _ Q hstepQ post _ hestQ
  obtain ⟨⟨hcfg, hdisk⟩, hlook⟩ := hfold
  have hfr : st.config_enabled.isEmpty = false := by
    cases hce : st.config_enabled with
    | nil => exact absurd hce hnonempty
    | cons a l => simp
  refine ⟨?_, ?_, ?_⟩ <;>
    simp only [discover_plugins, hfr, Bool.false_eq_true, false_and, if_neg,
      not_false_iff]
  · exact hcfg
  · exact hdisk
  · intro hnotin
    exact hlook hnotin

/-- A concrete plugin directory entry whose manifest (id "p") parses and
validates. -/
def entryP : Str × Except Str ManifestJson := (strL "/plugins/p", .ok manifestJsonC9)

/-- The plugin record produced for `entryP` under an empty enabled-set. -/
def pC5 : Plugin :=
  { manifest := manifestFromJson manifestJsonC9
    path := strL "/plugins/p"
    enabled := false
    state := .disabled
    config := .null
    last_error := none }

/-- Witness for the first-run half of C5. -/
theorem claim_C5_first_run_auto_enable_witness :
    ∃ q, lookupA (discover_plugins (strL "0.1.0") (newService .missing)
        [entryP]).1.plugins pC5.manifest.id = some q
      ∧ q.enabled = true ∧ q.state = .unloaded
      ∧ pC5.manifest.id ∈ (discover_plugins (strL "0.1.0") (newService .missing)
          [entryP]).1.config_enabled
      ∧ (discover_plugins (strL "0.1.0") (newService .missing) [entryP]).1.disk
          = .saved (discover_plugins (strL "0.1.0") (newService .missing)
              [entryP]).1.config_enabled :=
  claim_C5_first_run_auto_enable (strL "0.1.0") (newService .missing)
    [entryP] [] [] entryP pC5 rfl rfl (by rfl)

/-- Discovery state after a fresh install discovers plugin "p". -/
def stC5a : ServiceState :=
  (discover_plugins (strL "0.1.0") (newService .missing) [entryP]).1

/-- State after the user disables "p" (the only enabled plugin). -/
def stC5b : ServiceState := (disable_plugin stC5a (strL "p")).1

/-- State after a restart (config reloaded from disk) rediscovers "p". -/
def stC5c : ServiceState :=
  (discover_plugins (strL "0.1.0") (newService stC5b.disk) [entryP]).1

/-- C5 counterexample: disabling every extension empties the persisted
enabled-set, so the next discovery takes the fresh-install path again and
re-auto-enables the previously disabled extension "p". -/
theorem claim_C5_counterexample :
    (lookupA stC5a.plugins (strL "p")).map Plugin.enabled = some true ∧
    (lookupA stC5b.plugins (strL "p")).map Plugin.enabled = some false ∧
    stC5b.config_enabled = [] ∧
    stC5b.disk = DiskFile.saved [] ∧
    (lookupA stC5c.plugins (strL "p")).map Plugin.enabled = some true ∧
    (lookupA stC5c.plugins (strL "p")).map Plugin.state
      = some PluginState.unloaded := by
  exact ⟨rfl, rfl, rfl, rfl, rfl, rfl⟩

/-- Witness for the restart half of C5 (non-empty persisted set). -/
theorem claim_C5_restart_respects_disabled_witness :
    (discover_plugins (strL "0.1.0") (newService (.saved [strL "other"]))
        [entryP]).1.config_enabled
      = (newService (.saved [strL "other"])).config_enabled ∧
    (discover_plugins (strL "0.1.0") (newService (.saved [strL "other"]))
        [entryP]).1.disk = (newService (.saved [strL "other"])).disk ∧
    ∃ q, lookupA (discover_plugins (strL "0.1.0")
          (newService (.saved [strL "other"])) [entryP]).1.plugins
        pC5.manifest.id = some q
      ∧ q.enabled = false ∧ q.state = .disabled :=
  have h := claim_C5_restart_respects_disabled (strL "0.1.0")
    (newService (.saved [strL "other"])) [entryP] [] [] entryP pC5
    (by decide) rfl (by rfl)
  ⟨h.1, h.2.1, h.2.2 (by decide)⟩

/-- C4, amended: `disable_plugin` on an enabled plugin sets `enabled` to
false, forces the state to `Disabled`, removes the id from the persisted
enabled-set and writes the persistence file — but it does not unload the
runner: the runtime table is untouched, so a live runner keeps receiving
dispatched events until `unload_plugin` is called separately. -/
theorem claim_C4_disable_does_not_unload (st : ServiceState) (plugin_id : Str)
    (p : Plugin) (event : Event)
    (hp : lookupA st.plugins plugin_id = some p) (hen : p.enabled = true) :
    disable_plugin st plugin_id
      = ({ st with
           plugins := insertA st.plugins plugin_id
             { p with enabled := false, state := .disabled }
           config_enabled := removeS plugin_id st.config_enabled
           disk := .saved (removeS plugin_id st.config_enabled) }, .ok ()) ∧
    (disable_plugin st plugin_id).1.runtimes = st.runtimes ∧
    dispatch_event (disable_plugin st plugin_id).1.runtimes event
      = dispatch_event st.runtimes event := by
  have hmain : disable_plugin st plugin_id
      = ({ st with
           plugins := insertA st.plugins plugin_id
             { p with enabled := false, state := .disabled }
           config_enabled := removeS plugin_id st.config_enabled
           disk := .saved (removeS plugin_id st.config_enabled) }, .ok ()) := by
    simp [disable_plugin, hp, hen, save_config]
  refine ⟨hmain, ?_, ?_⟩ <;> rw [hmain]

/-- A trivially well-behaved live runner. -/
def rtC4 : Runtime := { unload_result := .ok (), on_event := fun _ => .ok () }

/-- A loaded, enabled plugin record for id "p". -/
def plgC4 : Plugin :=
  { manifest := manifestFromJson manifestJsonC9
    path := strL "/plugins/p"
    enabled := true
    state := .loaded
    config := .null
    last_error := none }

/-- A service state in which "p" is loaded with a live runner. -/
def stC4 : ServiceState :=
  { plugins := [(strL "p", plgC4)]
    runtimes := [(strL "p", rtC4)]
    config_enabled := [strL "p"]
    disk := .saved [strL "p"] }

/-- A concrete event. -/
def evC4 : Event := { event_type := .fileSave, data := .null }

/-- C4 counterexample: disabling the loaded plugin "p" leaves its runner in
the runtime table, and event dispatch still invokes it. -/
theorem claim_C4_counterexample :
    (disable_plugin stC4 (strL "p")).1.runtimes = [(strL "p", rtC4)] ∧
    lookupA (disable_plugin stC4 (strL "p")).1.runtimes (strL "p") = some rtC4 ∧
    dispatch_event (disable_plugin stC4 (strL "p")).1.runtimes evC4
      = [(strL "p", Except.ok ())] ∧
    (lookupA (disable_plugin stC4 (strL "p")).1.plugins (strL "p")).map
        Plugin.state = some PluginState.disabled := by
  exact ⟨rfl, rfl, rfl, rfl⟩

/-- Witness for the amended C4 at the concrete loaded state. -/
theorem claim_C4_disable_does_not_unload_witness :
    disable_plugin stC4 (strL "p")
      = ({ stC4 with
           plugins := insertA stC4.plugins (strL "p")
             { plgC4 with enabled := false, state := .disabled }
           config_enabled := removeS (strL "p") stC4.config_enabled
           disk := .saved (removeS (strL "p") stC4.config_enabled) }, .ok ()) ∧
    (disable_plugin stC4 (strL "p")).1.runtimes = stC4.runtimes ∧
    dispatch_event (disable_plugin stC4 (strL "p")).1.runtimes evC4
      = dispatch_event stC4.runtimes evC4 :=
  claim_C4_disable_does_not_unload stC4 (strL "p") plgC4 evC4 rfl rfl

/-- C10: `dispatch_event` (taking `&self`, so the plugin records cannot be
mutated) invokes every runner in the table on the same event; a handler
error is recorded in the trace (logged) and never stops the iteration or
propagates, so dispatch always returns normally with one trace entry per
loaded runtime. -/
theorem claim_C10_dispatch_errors_isolated
    (rts : List (Str × Runtime)) (event : Event) :
    dispatch_event rts event = rts.map (fun pr => (pr.1, pr.2.on_event event)) ∧
    (∀ pre id rt post, rts = pre ++ (id, rt) :: post →
      dispatch_event rts event
        = dispatch_event pre event
            ++ (id, rt.on_event event) :: dispatch_event post event) := by
  have hmap : ∀ l : List (Str × Runtime),
      dispatch_event l event = l.map fun pr => (pr.1, pr.2.on_event event) := by
    intro l
    induction l with
    | nil => rfl
    | cons pr rest ih =>
      obtain ⟨id, rt⟩ := pr
      simp [dispatch_event, ih]
  refine ⟨hmap rts, ?_⟩
  intro pre id rt post hsplit
  subst hsplit
  simp [hmap]

/-- A runner whose event handler always fails. -/
def rtErr : Runtime :=
  { unload_result := .ok ()
    on_event := fun _ => .error (.InternalError (strL "handler panicked")) }

/-- Witness for C10: the runner after a failing handler is still invoked. -/
theorem claim_C10_dispatch_errors_isolated_witness :
    dispatch_event [(strL "a", rtErr), (strL "p", rtC4)] evC4
      = dispatch_event [] evC4
          ++ (strL "a", rtErr.on_event evC4)
            :: dispatch_event [(strL "p", rtC4)] evC4 :=
  (claim_C10_dispatch_errors_isolated [(strL "a", rtErr), (strL "p", rtC4)]
    evC4).2 [] (strL "a") rtErr [(strL "p", rtC4)] rfl

theorem load_plugins_loop_attempts_all (oracle : RunnerOracle) :
    ∀ (ids : List Str) (st : ServiceState),
      (load_plugins_loop oracle st ids).2 = ids := by
  intro ids
  induction ids with
  | nil => intro st; rfl
  | cons id rest ih =>
    intro st
    simp [load_plugins_loop, ih]

/-- C8, amended: a runner load failure is caught per extension — the failing
plugin's `last_error` is set to the error's display string and its state to
`Failed`, every other plugin's record and the runtime table are unchanged —
and the startup loop goes on to attempt every remaining extension.  A
runner unload failure, however, is only logged: `unload_plugin` still
removes the runner, resets the state to `Unloaded` (not `Failed`), leaves
`last_error` untouched, and returns Ok. -/
theorem claim_C8_load_failure_isolation
    (oracle : RunnerOracle) (st : ServiceState) (plugin_id : Str) (p : Plugin)
    (rt : Runtime) (e eu : AppError) (other : Str)
    (hp : lookupA st.plugins plugin_id = some p)
    (hnl : p.state ≠ .loaded) (hen : p.enabled = true)
    (hty : p.manifest.plugin_type = .wasm)
    (hfail : oracle.load .wasm p.path p.manifest = .error e)
    (hrt : lookupA st.runtimes plugin_id = some rt)
    (_hfailu : rt.unload_result = .error eu)
    (hother : other ≠ plugin_id) :
    (load_plugin oracle st plugin_id
       = ({ st with
            plugins :=
              insertA st.plugins plugin_id
                { p with state := .failed, last_error := some (errToString e) } },
          .error e)) ∧
    (lookupA (load_plugin oracle st plugin_id).1.plugins other
       = lookupA st.plugins other) ∧
    ((load_plugin oracle st plugin_id).1.runtimes = st.runtimes) ∧
    (unload_plugin st plugin_id
       = ({ st with
            runtimes := removeA st.runtimes plugin_id
            plugins := insertA st.plugins plugin_id
              { p with state := .unloaded } }, .ok ())) ∧
    (lookupA (unload_plugin st plugin_id).1.plugins other
       = lookupA st.plugins other) ∧
    ((lookupA (unload_plugin st plugin_id).1.plugins plugin_id).map
        Plugin.last_error = some p.last_error) ∧
    (∀ (ids : List Str) (st2 : ServiceState),
      (load_plugins_loop oracle st2 ids).2 = ids) := by
  have hload : load_plugin oracle st plugin_id
      = ({ st with
           plugins :=
             insertA st.plugins plugin_id
               { p with state := .failed, last_error := some (errToString e) } },
         .error e) := by
    simp [load_plugin, hp, hnl, hen, hty, hfail]
  have hunload : unload_plugin st plugin_id
      = ({ st with
           runtimes := removeA st.runtimes plugin_id
           plugins := insertA st.plugins plugin_id
             { p with state := .unloaded } }, .ok ()) := by
    simp [unload_plugin, hp, hrt]
  refine ⟨hload, ?_, ?_, hunload, ?_, ?_, load_plugins_loop_attempts_all oracle⟩
  · rw [hload]
    exact lookupA_insertA_ne _ _ (Ne.symm hother)
  · rw [hload]
  · rw [hunload]
    exact lookupA_insertA_ne _ _ (Ne.symm hother)
  · rw [hunload]
    simp [lookupA_insertA_self]

/-- A runner whose unload fails (e.g. interpreter import failure during
`on_unload`). -/
def rtC8 : Runtime :=
  { unload_result := .error (.InternalError (strL "interpreter import failure"))
    on_event := fun _ => .ok () }

/-- A wasm-typed enabled plugin whose runner load will fail. -/
def plgC8 : Plugin :=
  { manifest := { manifestFromJson manifestJsonC9 with plugin_type := .wasm }
    path := strL "/plugins/p"
    enabled := true
    state := .unloaded
    config := .null
    last_error := none }

/-- A service state holding `plgC8` (and its stale runner entry). -/
def stC8 : ServiceState :=
  { plugins := [(strL "p", plgC8)]
    runtimes := [(strL "p", rtC8)]
    config_enabled := [strL "p"]
    disk := .saved [strL "p"] }

/-- An oracle whose wasm instantiation always fails. -/
def oracleC8 : RunnerOracle :=
  { load := fun _ _ _ =>
      .error (.InternalError (strL "Failed to instantiate WASM module: boom")) }

/-- C8 counterexample: a runner unload failure does not set the plugin's
state to `Failed` nor record `last_error` — the error is discarded, the
state becomes `Unloaded` and `last_error` stays `none`. -/
theorem claim_C8_counterexample :
    rtC8.unload_result
      = .error (.InternalError (strL "interpreter import failure")) ∧
    (unload_plugin stC8 (strL "p")).2 = .ok () ∧
    (lookupA (unload_plugin stC8 (strL "p")).1.plugins (strL "p")).map
        Plugin.state = some PluginState.unloaded ∧
    (lookupA (unload_plugin stC8 (strL "p")).1.plugins (strL "p")).map
        Plugin.last_error = some none := by
  exact ⟨rfl, rfl, rfl, rfl⟩

/-- Witness for the amended C8 at the concrete failing state. -/
theorem claim_C8_load_failure_isolation_witness :
    (load_plugin oracleC8 stC8 (strL "p")
       = ({ stC8 with
            plugins :=
              insertA stC8.plugins (strL "p")
                { plgC8 with
                  state := .failed
                  last_error := some (errToString (.InternalError
                    (strL "Failed to instantiate WASM module: boom"))) } },
          .error (.InternalError (strL "Failed to instantiate WASM module: boom")))) ∧
    (lookupA (load_plugin oracleC8 stC8 (strL "p")).1.plugins (strL "q")
       = lookupA stC8.plugins (strL "q")) ∧
    ((load_plugin oracleC8 stC8 (strL "p")).1.runtimes = stC8.runtimes) ∧
    (unload_plugin stC8 (strL "p")
       = ({ stC8 with
            runtimes := removeA stC8.runtimes (strL "p")
            plugins := insertA stC8.plugins (strL "p")
              { plgC8 with state := .unloaded } }, .ok ())) ∧
    (lookupA (unload_plugin stC8 (strL "p")).1.plugins (strL "q")
       = lookupA stC8.plugins (strL "q")) ∧
    ((lookupA (unload_plugin stC8 (strL "p")).1.plugins (strL "p")).map
        Plugin.last_error = some plgC8.last_error) ∧
    (∀ (ids : List Str) (st2 : ServiceState),
      (load_plugins_loop oracleC8 st2 ids).2 = ids) :=
  claim_C8_load_failure_isolation oracleC8 stC8 (strL "p") plgC8 rtC8
    (.InternalError (strL "Failed to instantiate WASM module: boom"))
    (.InternalError (strL "interpreter import failure")) (strL "q")
    rfl (by decide) rfl rfl rfl rfl rfl (by decide)

/-! ### Dependency resolution (PluginService::resolve_dependencies) -/

/-- The three-color DFS bookkeeping threaded through `visit_plugin`: the
`visited` and `visiting` hash-sets and the accumulated load order. -/
structure VisitState where
  visited : List Str
  visiting : List Str
  order : List Str

mutual
/-- `PluginService::visit_plugin`: depth-first topological visit.  `fuel`
bounds the recursion depth for the termination checker; each nested visit
inserts a fresh plugin key into `visiting`, so with the fuel used by
`resolve_dependencies` (`plugins.length + 1`) the exhaustion branch is
unreachable (proved in the claim theorem, which shows the visit
succeeds). -/
def visitPlugin (plugins : List (Str × Plugin)) :
    Nat → Str → VisitState → Except Str VisitState
  | 0, _, _ => .error (strL "recursion depth exhausted")
  | fuel + 1, plugin_id, vs =>
    if plugin_id ∈ vs.visited then .ok vs
    else if plugin_id ∈ vs.visiting then
      .error (strL "Circular dependency detected involving plugin: " ++ plugin_id)
    else
      let vs1 : VisitState := { vs with visiting := insertS plugin_id vs.visiting }
      let afterDeps : Except Str VisitState :=
        match lookupA plugins plugin_id with
        | some plugin => visitDeps plugins fuel plugin_id plugin.manifest.dependencies vs1
        | none => .ok vs1
      match afterDeps with
      | .error e => .error e
      | .ok vs2 =>
        .ok { vs2 with
              visiting := removeS plugin_id vs2.visiting
              visited := insertS plugin_id vs2.visited
              order := vs2.order ++ [plugin_id] }
termination_by fuel _ _ => (fuel, 0)

/-- The dependency loop inside `visit_plugin`: a dependency that is not
installed, or whose installed version fails the requester's constraint, is
a hard error; otherwise the dependency is visited first. -/
def visitDeps (plugins : List (Str × Plugin)) :
    Nat → Str → List (Str × Str) → VisitState → Except Str VisitState
  | _, _, [], vs => .ok vs
  | fuel, plugin_id, (dep_id, version_req) :: rest, vs =>
    match lookupA plugins dep_id with
    | some dep_plugin =>
      if version_satisfies dep_plugin.manifest.version version_req then
        match visitPlugin plugins fuel dep_id vs with
        | .error e => .error e
        | .ok vs2 => visitDeps plugins fuel plugin_id rest vs2
      else
        .error (strL "Plugin " ++ plugin_id ++ strL " requires " ++ dep_id
          ++ strL " version " ++ version_req ++ strL ", but found "
          ++ dep_plugin.manifest.version)
    | none =>
      .error (strL "Plugin " ++ plugin_id ++ strL " depends on " ++ dep_id
        ++ strL " which is not installed")
termination_by fuel _ deps _ => (fuel, deps.length + 1)
end

/-- The loop of `resolve_dependencies` over all plugin keys (hash-map
iteration order is arbitrary, so theorems quantify over the list order). -/
def resolveLoop (plugins : List (Str × Plugin)) :
    List Str → VisitState → Except Str VisitState
  | [], vs => .ok vs
  | plugin_id :: rest, vs =>
    match visitPlugin plugins (plugins.length + 1) plugin_id vs with
    | .error e => .error e
    | .ok vs2 => resolveLoop plugins rest vs2

/-- `PluginService::resolve_dependencies`. -/
def resolve_dependencies (plugins : List (Str × Plugin)) :
    Except Str (List Str) :=
  match resolveLoop plugins (plugins.map Prod.fst)
      { visited := [], visiting := [], order := [] } with
  | .error e => .error e
  | .ok vs => .ok vs.order

theorem lookupA_mem {α : Type} :
    ∀ {l : List (Str × α)} {k : Str} {v : α},
      lookupA l k = some v → (k, v) ∈ l := by
  intro l
  induction l with
  | nil => intro k v h; simp [lookupA] at h
  | cons p rest ih =>
    intro k v h
    obtain ⟨k0, v0⟩ := p
    by_cases h0 : k0 = k
    · subst h0
      simp [lookupA] at h
      simp [h]
    · simp only [lookupA, if_neg h0] at h
      exact List.mem_cons_of_mem _ (ih h)

theorem lookup_of_mem_keys {α : Type} :
    ∀ {l : List (Str × α)} {k : Str}, k ∈ l.map Prod.fst →
      ∃ v, lookupA l k = some v := by
  intro l
  induction l with
  | nil => intro k h; simp at h
  | cons p rest ih =>
    intro k h
    obtain ⟨k0, v0⟩ := p
    by_cases h0 : k0 = k
    · exact ⟨v0, by simp [lookupA, h0]⟩
    · simp only [List.map_cons, List.mem_cons] at h
      rcases h with h | h
      · exact absurd h.symm h0
      · obtain ⟨v, hv⟩ := ih h
        exact ⟨v, by simp [lookupA, h0, hv]⟩

theorem lookupA_eq_of_mem_nodup {α : Type} :
    ∀ {l : List (Str × α)}, (l.map Prod.fst).Nodup →
      ∀ {k : Str} {v : α}, (k, v) ∈ l → lookupA l k = some v := by
  intro l
  induction l with
  | nil => intro _ k v h; simp at h
  | cons p rest ih =>
    intro hnd k v h
    obtain ⟨k0, v0⟩ := p
    simp only [List.map_cons, List.nodup_cons] at hnd
    rcases List.mem_cons.mp h with h | h
    · obtain ⟨rfl, rfl⟩ := Prod.mk.injEq .. ▸ h
      simp [lookupA]
    · have hk0 : k0 ≠ k := by
        rintro rfl
        exact hnd.1 (List.mem_map.mpr ⟨(k0, v), h, rfl⟩)
      simp only [lookupA, if_neg hk0]
      exact ih hnd.2 h

theorem mem_insertS_iff {x y : Str} {l : List Str} :
    x ∈ insertS y l ↔ x = y ∨ x ∈ l := by
  by_cases hy : y ∈ l
  · simp only [insertS, if_pos hy]
    constructor
    · exact Or.inr
    · rintro (rfl | h)
      · exact hy
      · exact h
  · simp [insertS, if_neg hy, List.mem_cons]

theorem insertS_of_not_mem {x : Str} {l : List Str} (h : x ∉ l) :
    insertS x l = x :: l := by
  simp [insertS, h]

theorem removeS_of_not_mem {x : Str} {l : List Str} (h : x ∉ l) :
    removeS x l = l := by
  simp only [removeS, List.filter_eq_self, decide_eq_true_iff, ne_eq]
  intro a ha hax
  exact h (hax ▸ ha)

theorem removeS_cons_self {x : Str} {l : List Str} (h : x ∉ l) :
    removeS x (x :: l) = l := by
  have hstep : removeS x (x :: l) = removeS x l := by
    simp [removeS, List.filter_cons]
  rw [hstep, removeS_of_not_mem h]

theorem filter_length_mono {p q : Str → Bool}
    (h : ∀ x, p x = true → q x = true) :
    ∀ l : List Str, (l.filter p).length ≤ (l.filter q).length := by
  intro l
  induction l with
  | nil => simp
  | cons a rest ih =>
    by_cases hp : p a = true
    · simp [List.filter_cons, hp, h a hp]
      omega
    · simp only [List.filter_cons, hp, Bool.false_eq_true, if_false]
      by_cases hq : q a = true <;> simp [hq] <;> omega

/-- The number of plugin keys not yet on the visiting stack. -/
def unseenCount (plugins : List (Str × Plugin)) (visiting : List Str) : Nat :=
  ((plugins.map Prod.fst).filter fun k => decide (k ∉ visiting)).length

theorem filter_notMem_cons_lt :
    ∀ (l : List Str) (id : Str) (visiting : List Str), id ∈ l → id ∉ visiting →
      ((l.filter fun k => decide (k ∉ id :: visiting)).length
        < (l.filter fun k => decide (k ∉ visiting)).length) := by
  intro l
  induction l with
  | nil => intro id visiting h; simp at h
  | cons a rest ih =>
    intro id visiting hmem hnv
    by_cases ha : a = id
    · subst ha
      have hmono := filter_length_mono
        (p := fun k => decide (k ∉ a :: visiting))
        (q := fun k => decide (k ∉ visiting))
        (fun x hx => by
          simp only [decide_eq_true_iff] at hx ⊢
          exact fun hxv => hx (List.mem_cons_of_mem a hxv)) rest
      simp only [List.filter_cons, decide_eq_true_iff]
      rw [if_neg (by simp), if_pos (by simpa using hnv)]
      simp only [List.length_cons]
      omega
    · have hrest : id ∈ rest := by
        rcases List.mem_cons.mp hmem with h | h
        · exact absurd h.symm ha
        · exact h
      have heqpred : (decide (a ∉ id :: visiting)) = (decide (a ∉ visiting)) := by
        by_cases hav : a ∈ visiting
        · simp [hav]
        · simp [hav, List.mem_cons, ha]
      by_cases hav : (a ∉ visiting : Prop)
      · simp only [List.filter_cons, heqpred]
        rw [if_pos (by simpa using hav), if_pos (by simpa using hav)]
        simp only [List.length_cons]
        have := ih id visiting hrest hnv
        omega
      · simp only [List.filter_cons, heqpred]
        rw [if_neg (by simpa using hav), if_neg (by simpa using hav)]
        exact ih id visiting hrest hnv

theorem unseenCount_insert_lt {ps : List (Str × Plugin)} {id : Str}
    {visiting : List Str} (hid : id ∈ ps.map Prod.fst) (hnv : id ∉ visiting) :
    unseenCount ps (id :: visiting) < unseenCount ps visiting :=
  filter_notMem_cons_lt (ps.map Prod.fst) id visiting hid hnv

theorem split_concat {α : Type} :
    ∀ {xs : List α} {l : List α} {x : α} {p : α} {ys : List α},
      l ++ [x] = xs ++ p :: ys →
      (xs = l ∧ p = x ∧ ys = []) ∨ ∃ ys2, l = xs ++ p :: ys2 ∧ ys = ys2 ++ [x] := by
  intro xs
  induction xs with
  | nil =>
    intro l x p ys h
    cases l with
    | nil =>
      simp only [List.nil_append, List.nil_eq, List.cons.injEq] at h
      exact Or.inl ⟨rfl, h.1.symm, h.2⟩
    | cons a l2 =>
      simp at h
      exact Or.inr ⟨l2, by simp [h.1], by simp [h.2]⟩
  | cons b xs2 ih =>
    intro l x p ys h
    cases l with
    | nil =>
      simp at h
    | cons a l2 =>
      simp only [List.cons_append, List.cons.injEq] at h
      obtain ⟨rfl, h2⟩ := h
      rcases ih h2 with ⟨rfl, rfl, rfl⟩ | ⟨ys2, hl2, hys⟩
      · exact Or.inl ⟨rfl, rfl, rfl⟩
      · exact Or.inr ⟨ys2, by simp [hl2], hys⟩

/-- The DFS invariant: `visited` and `order` hold the same ids, the order
is duplicate-free, nothing on the visiting stack is already finished, the
order holds only plugin keys, and every plugin already in the order has all
its dependencies strictly earlier. -/
structure VisitInv (ps : List (Str × Plugin)) (vs : VisitState) : Prop where
  mem_iff : ∀ x, x ∈ vs.visited ↔ x ∈ vs.order
  nodup : vs.order.Nodup
  disj : ∀ x ∈ vs.visiting, x ∉ vs.visited
  in_keys : ∀ x ∈ vs.order, x ∈ ps.map Prod.fst
  ordered : ∀ xs p ys, vs.order = xs ++ p :: ys →
    ∀ q, lookupA ps p = some q → ∀ dp ∈ q.manifest.dependencies, dp.1 ∈ xs

theorem orderOK_concat {ps : List (Str × Plugin)} {order : List Str} {id : Str}
    (hord : ∀ xs p ys, order = xs ++ p :: ys → ∀ q, lookupA ps p = some q →
      ∀ dp ∈ q.manifest.dependencies, dp.1 ∈ xs)
    (hid : ∀ q, lookupA ps id = some q →
      ∀ dp ∈ q.manifest.dependencies, dp.1 ∈ order) :
    ∀ xs p ys, order ++ [id] = xs ++ p :: ys → ∀ q, lookupA ps p = some q →
      ∀ dp ∈ q.manifest.dependencies, dp.1 ∈ xs := by
  intro xs p ys heq q hq dp hdp
  rcases split_concat heq with ⟨rfl, rfl, rfl⟩ | ⟨ys2, hord2, hys⟩
  · exact hid q hq dp hdp
  · exact hord xs p ys2 hord2 q hq dp hdp

theorem visitDeps_spec (ps : List (Str × Plugin)) (rank : Str → Nat) (fuel : Nat)
    (hP1 : ∀ id vs, VisitInv ps vs → id ∈ ps.map Prod.fst →
      (∀ v ∈ vs.visiting, rank id < rank v) →
      unseenCount ps vs.visiting < fuel →
      ∃ vs2, visitPlugin ps fuel id vs = .ok vs2 ∧ VisitInv ps vs2 ∧
        vs2.visiting = vs.visiting ∧ (∀ x ∈ vs.visited, x ∈ vs2.visited) ∧
        id ∈ vs2.visited ∧ ∃ d, vs2.order = vs.order ++ d) :
    ∀ (deps : List (Str × Str)) (plugin_id : Str) (vs : VisitState),
      VisitInv ps vs →
      (∀ dp ∈ deps, ∃ q, lookupA ps dp.1 = some q
        ∧ version_satisfies q.manifest.version dp.2 = true
        ∧ dp.1 ∈ ps.map Prod.fst ∧ rank dp.1 < rank plugin_id) →
      (∀ v ∈ vs.visiting, rank plugin_id ≤ rank v) →
      unseenCount ps vs.visiting < fuel →
      ∃ vs2, visitDeps ps fuel plugin_id deps vs = .ok vs2 ∧ VisitInv ps vs2 ∧
        vs2.visiting = vs.visiting ∧ (∀ x ∈ vs.visited, x ∈ vs2.visited) ∧
        (∀ dp ∈ deps, dp.1 ∈ vs2.visited) ∧ ∃ d, vs2.order = vs.order ++ d := by
  intro deps
  induction deps with
  | nil =>
    intro pid vs hInv _ _ _
    exact ⟨vs, by simp [visitDeps], hInv, rfl, fun x hx => hx, by simp, [], by simp⟩
  | cons dp rest ih =>
    intro pid vs hInv hdeps hrk hfu
    obtain ⟨d, req⟩ := dp
    obtain ⟨q, hq, hver, hdk, hdr⟩ := hdeps (d, req) (List.mem_cons_self _ _)
    obtain ⟨vs1, hvp, hInv1, hvisg1, hmono1, hdin1, Δ1, hord1⟩ :=
      hP1 d vs hInv hdk (fun v hv => lt_of_lt_of_le hdr (hrk v hv)) hfu
    obtain ⟨vs2, hvd, hInv2, hvisg2, hmono2, hdeps2, Δ2, hord2⟩ :=
      ih pid vs1 hInv1
        (fun dp2 h2 => hdeps dp2 (List.mem_cons_of_mem _ h2))
        (fun v hv => hrk v (hvisg1 ▸ hv))
        (by rw [hvisg1]; exact hfu)
    refine ⟨vs2, ?_, hInv2, by rw [hvisg2, hvisg1],
      fun x hx => hmono2 x (hmono1 x hx), ?_, Δ1 ++ Δ2,
      by rw [hord2, hord1, List.append_assoc]⟩
    · show visitDeps ps fuel pid ((d, req) :: rest) vs = .ok vs2
      simp only [visitDeps, hq, hver, if_true, hvp]
      exact hvd
    · intro dp2 h2
      rcases List.mem_cons.mp h2 with h | h
      · subst h
        exact hmono2 _ hdin1
      · exact hdeps2 dp2 h

theorem visitPlugin_spec (ps : List (Str × Plugin)) (rank : Str → Nat)
    (hkeys : (ps.map Prod.fst).Nodup)
    (hdeps : ∀ pr ∈ ps, ∀ dp ∈ pr.2.manifest.dependencies,
      ∃ qq ∈ ps, qq.1 = dp.1
        ∧ version_satisfies qq.2.manifest.version dp.2 = true)
    (hrank : ∀ pr ∈ ps, ∀ dp ∈ pr.2.manifest.dependencies,
      rank dp.1 < rank pr.1) :
    ∀ fuel id vs, VisitInv ps vs → id ∈ ps.map Prod.fst →
      (∀ v ∈ vs.visiting, rank id < rank v) →
      unseenCount ps vs.visiting < fuel →
      ∃ vs2, visitPlugin ps fuel id vs = .ok vs2 ∧ VisitInv ps vs2 ∧
        vs2.visiting = vs.visiting ∧ (∀ x ∈ vs.visited, x ∈ vs2.visited) ∧
        id ∈ vs2.visited ∧ ∃ d, vs2.order = vs.order ++ d := by
  intro fuel
  induction fuel with
  | zero => intro id vs _ _ _ hfu; omega
  | succ fuel ih =>
    intro id vs hInv hid hrk hfu
    by_cases hvd : id ∈ vs.visited
    · exact ⟨vs, by simp [visitPlugin, hvd], hInv, rfl, fun x hx => hx, hvd,
        [], by simp⟩
    · have hnvisit : id ∉ vs.visiting := fun hv => absurd (hrk id hv) (lt_irrefl _)
      obtain ⟨plugin, hlook⟩ := lookup_of_mem_keys hid
      have hpmem : (id, plugin) ∈ ps := lookupA_mem hlook
      have hins : insertS id vs.visiting = id :: vs.visiting :=
        insertS_of_not_mem hnvisit
      have hInv1 : VisitInv ps { vs with visiting := insertS id vs.visiting } :=
        { mem_iff := hInv.mem_iff
          nodup := hInv.nodup
          disj := by
            intro x hx
            rcases mem_insertS_iff.mp hx with rfl | hx2
            · exact hvd
            · exact hInv.disj x hx2
          in_keys := hInv.in_keys
          ordered := hInv.ordered }
      have hdeps2 : ∀ dp ∈ plugin.manifest.dependencies,
          ∃ q, lookupA ps dp.1 = some q
            ∧ version_satisfies q.manifest.version dp.2 = true
            ∧ dp.1 ∈ ps.map Prod.fst ∧ rank dp.1 < rank id := by
        intro dp hdp
        obtain ⟨qq, hqmem, hq1, hqver⟩ := hdeps (id, plugin) hpmem dp hdp
        refine ⟨qq.2, ?_, hqver, ?_, hrank (id, plugin) hpmem dp hdp⟩
        · have : (dp.1, qq.2) ∈ ps := by
            rw [← hq1]
            exact hqmem
          exact lookupA_eq_of_mem_nodup hkeys this
        · exact List.mem_map.mpr ⟨qq, hqmem, hq1⟩
      have hrk1 : ∀ v ∈ ({ vs with visiting := insertS id vs.visiting} :
          VisitState).visiting, rank id ≤ rank v := by
        intro v hv
        rcases mem_insertS_iff.mp hv with rfl | hv2
        · exact le_refl _
        · exact le_of_lt (hrk v hv2)
      have hfu1 : unseenCount ps ({ vs with visiting := insertS id vs.visiting} :
          VisitState).visiting < fuel := by
        show unseenCount ps (insertS id vs.visiting) < fuel
        rw [hins]
        have := unseenCount_insert_lt hid hnvisit
        omega
      obtain ⟨vs2, hvdrun, hInv2, hvisg2, hmono2, hdepsin2, Δ2, hord2⟩ :=
        visitDeps_spec ps rank fuel ih plugin.manifest.dependencies id
          { vs with visiting := insertS id vs.visiting } hInv1 hdeps2 hrk1 hfu1
      have hvis2 : vs2.visiting = id :: vs.visiting := by
        rw [hvisg2]
        exact hins
      have hidvisit2 : id ∈ vs2.visiting := by
        rw [hvis2]
        exact List.mem_cons_self _ _
      have hidnot2 : id ∉ vs2.visited := hInv2.disj id hidvisit2
      have hidnotord2 : id ∉ vs2.order := fun h => hidnot2 ((hInv2.mem_iff id).mpr h)
      refine ⟨{ vs2 with
                visiting := removeS id vs2.visiting
                visited := insertS id vs2.visited
                order := vs2.order ++ [id] }, ?_, ?_, ?_, ?_, ?_, ?_⟩
      · simp only [visitPlugin, if_neg hvd, if_neg hnvisit, hlook, hvdrun]
      · refine
          { mem_iff := ?_
            nodup := ?_
            disj := ?_
            in_keys := ?_
            ordered := ?_ }
        · intro x
          show x ∈ insertS id vs2.visited ↔ x ∈ vs2.order ++ [id]
          rw [mem_insertS_iff, List.mem_append, List.mem_singleton,
            hInv2.mem_iff x]
          tauto
        · show (vs2.order ++ [id]).Nodup
          simp [List.nodup_append, hInv2.nodup, hidnotord2]
        · intro x hx
          have hxvis : x ∈ vs.visiting := by
            have hx2 : x ∈ removeS id vs2.visiting := hx
            rw [hvis2, removeS_cons_self hnvisit] at hx2
            exact hx2
          have hxvis2 : x ∈ vs2.visiting := by
            rw [hvis2]
            exact List.mem_cons_of_mem _ hxvis
          have hxne : x ≠ id := fun hxe => hnvisit (hxe ▸ hxvis)
          show x ∉ insertS id vs2.visited
          rw [mem_insertS_iff]
          rintro (rfl | hxv)
          · exact hxne rfl
          · exact hInv2.disj x hxvis2 hxv
        · intro x hx
          rcases List.mem_append.mp hx with hx | hx
          · exact hInv2.in_keys x hx
          · rw [List.mem_singleton.mp hx]
            exact hid
        · show ∀ xs p ys, vs2.order ++ [id] = xs ++ p :: ys → _
          refine orderOK_concat hInv2.ordered ?_
          intro q hq dp hdp
          rw [hlook] at hq
          obtain rfl : plugin = q := Option.some.injEq .. ▸ hq
          exact (hInv2.mem_iff dp.1).mp (hdepsin2 dp hdp)
      · show removeS id vs2.visiting = vs.visiting
        rw [hvis2, removeS_cons_self hnvisit]
      · intro x hx
        exact mem_insertS_of_mem _ (hmono2 x hx)
      · exact mem_insertS_self _ _
      · exact ⟨Δ2 ++ [id], by rw [hord2, List.append_assoc]⟩

theorem resolveLoop_spec (ps : List (Str × Plugin)) (rank : Str → Nat)
    (hkeys : (ps.map Prod.fst).Nodup)
    (hdeps : ∀ pr ∈ ps, ∀ dp ∈ pr.2.manifest.dependencies,
      ∃ qq ∈ ps, qq.1 = dp.1
        ∧ version_satisfies qq.2.manifest.version dp.2 = true)
    (hrank : ∀ pr ∈ ps, ∀ dp ∈ pr.2.manifest.dependencies,
      rank dp.1 < rank pr.1) :
    ∀ (ids : List Str) (vs : VisitState), VisitInv ps vs → vs.visiting = [] →
      (∀ id ∈ ids, id ∈ ps.map Prod.fst) →
      ∃ vs2, resolveLoop ps ids vs = .ok vs2 ∧ VisitInv ps vs2 ∧
        vs2.visiting = [] ∧ (∀ x ∈ vs.visited, x ∈ vs2.visited) ∧
        (∀ id ∈ ids, id ∈ vs2.visited) := by
  intro ids
  induction ids with
  | nil =>
    intro vs hInv hvis _
    exact ⟨vs, rfl, hInv, hvis, fun x hx => hx, by simp⟩
  | cons id rest ih =>
    intro vs hInv hvis hids
    have hfu : unseenCount ps vs.visiting < ps.length + 1 := by
      rw [hvis]
      have hle : ((ps.map Prod.fst).filter fun k => decide (k ∉ ([] : List Str))).length
          ≤ (ps.map Prod.fst).length := List.length_filter_le _ _
      have hlen : (ps.map Prod.fst).length = ps.length := List.length_map _ _
      show unseenCount ps [] < ps.length + 1
      unfold unseenCount
      omega
    obtain ⟨vs1, hvp, hInv1, hvis1, hmono1, hin1, _, _⟩ :=
      visitPlugin_spec ps rank hkeys hdeps hrank (ps.length + 1) id vs hInv
        (hids id (List.mem_cons_self _ _))
        (by rw [hvis]; intro v hv; simp at hv) hfu
    obtain ⟨vs2, hrun, hInv2, hvis2, hmono2, hin2⟩ :=
      ih vs1 hInv1 (by rw [hvis1]; exact hvis)
        (fun id2 h2 => hids id2 (List.mem_cons_of_mem _ h2))
    refine ⟨vs2, ?_, hInv2, hvis2, fun x hx => hmono2 x (hmono1 x hx), ?_⟩
    · simp only [resolveLoop, hvp]
      exact hrun
    · intro id2 h2
      rcases List.mem_cons.mp h2 with rfl | h2
      · exact hmono2 _ hin1
      · exact hin2 id2 h2

/-- C2: for a plugin set whose dependency graph is acyclic (witnessed, as
always for a finite graph, by a rank function that strictly decreases along
dependency edges), in which every declared dependency names a discovered
plugin whose installed version satisfies the requester's constraint,
`resolve_dependencies` succeeds and returns a sequence containing each
discovered plugin id exactly once (duplicate-free and coextensive with the
key set), in which every plugin appears strictly after every plugin it
depends on. -/
theorem claim_C2_resolver_topological_order
    (ps : List (Str × Plugin)) (rank : Str → Nat)
    (hkeys : (ps.map Prod.fst).Nodup)
    (hdeps : ∀ pr ∈ ps, ∀ dp ∈ pr.2.manifest.dependencies,
      ∃ qq ∈ ps, qq.1 = dp.1
        ∧ version_satisfies qq.2.manifest.version dp.2 = true)
    (hrank : ∀ pr ∈ ps, ∀ dp ∈ pr.2.manifest.dependencies,
      rank dp.1 < rank pr.1) :
    ∃ order, resolve_dependencies ps = .ok order ∧
      order.Nodup ∧
      (∀ k, k ∈ order ↔ k ∈ ps.map Prod.fst) ∧
      (∀ xs p ys, order = xs ++ p :: ys → ∀ q, lookupA ps p = some q →
        ∀ dp ∈ q.manifest.dependencies, dp.1 ∈ xs) := by
  have hInv0 : VisitInv ps { visited := [], visiting := [], order := [] } :=
    { mem_iff := by intro x; simp
      nodup := List.nodup_nil
      disj := by intro x hx; simp at hx
      in_keys := by intro x hx; simp at hx
      ordered := by
        intro xs p ys h q hq dp hdp
        simp at h }
  obtain ⟨vs2, hrun, hInv2, _, _, hall⟩ :=
    resolveLoop_spec ps rank hkeys hdeps hrank (ps.map Prod.fst)
      { visited := [], visiting := [], order := [] } hInv0 rfl (fun id h => h)
  refine ⟨vs2.order, ?_, hInv2.nodup, ?_, hInv2.ordered⟩
  · simp only [resolve_dependencies, hrun]
  · intro k
    constructor
    · exact hInv2.in_keys k
    · intro hk
      exact (hInv2.mem_iff k).mp (hall k hk)

/-- A plugin record for the resolver example (§8 of the spec). -/
def mkPluginW (id version : String) (deps : List (Str × Str)) : Plugin :=
  { manifest :=
      { id := strL id
        name := strL id
        version := strL version
        description := none
        author := none
        license := none
        main := strL "main.wasm"
        plugin_type := .wasm
        styles := []
        min_host_version := none
        dependencies := deps
        capabilities := []
        hooks := []
        config_schema := none }
    path := strL "/plugins/x"
    enabled := true
    state := .unloaded
    config := .null
    last_error := none }

/-- Extensions A (1.2.0, no deps), B (1.0.0, depends on A `^1.0.0`),
C (1.0.0, depends on B `1.0.0`) from the spec's end-to-end example. -/
def psW : List (Str × Plugin) :=
  [(strL "a", mkPluginW "a" "1.2.0" []),
   (strL "b", mkPluginW "b" "1.0.0" [(strL "a", strL "^1.0.0")]),
   (strL "c", mkPluginW "c" "1.0.0" [(strL "b", strL "1.0.0")])]

/-- A rank strictly decreasing along psW's dependency edges. -/
def rankW : Str → Nat :=
  fun id => if id = strL "a" then 0 else if id = strL "b" then 1 else 2

/-- Witness for C2 at the spec's A/B/C example. -/
theorem claim_C2_resolver_topological_order_witness :
    ∃ order, resolve_dependencies psW = .ok order ∧
      order.Nodup ∧
      (∀ k, k ∈ order ↔ k ∈ psW.map Prod.fst) ∧
      (∀ xs p ys, order = xs ++ p :: ys → ∀ q, lookupA psW p = some q →
        ∀ dp ∈ q.manifest.dependencies, dp.1 ∈ xs) :=
  claim_C2_resolver_topological_order psW rankW (by decide) (by decide) (by decide)
